import Mathlib

/-!
Verification of the DragonOS text-console ring-buffer engine
(`src/kernel/src/libs/lib_ui/textui.rs`).

The development shallowly embeds the window/line/cell data model, the cursor
and scrolling state machine (`TextuiWindow::textui_new_line`,
`true_textui_putchar_window`, `textui_putchar_window`, `textui_putstr`) and the
glyph renderer (`Font::is_frcolor`,
`TextuiCharChromatic::textui_refresh_character`).

Conventions of the embedding:
- Rust `i32` values are modelled as `Int`; the kernel's values stay far below
  the wrap-around boundary, so no `% 2^32` is needed on `i32` arithmetic in the
  modelled paths.  The casts `i32 as usize` / `i32 as u32` and `u8`/`u32`
  shifts wrap, and are modelled with their exact machine semantics.
- Rust panics (out-of-bounds slice indexing, `todo!()`) are a dedicated
  result constructor `panic`; `Err(SystemError::EINVAL)` is the `err`
  constructor.  In Rust an `Err` returned through `?` leaves the `&mut self`
  mutations made so far in place, so `err` carries the window state.
- Rendering into the framebuffer is recorded as the ordered list of render
  calls (`RenderCall`) a run of the state machine issues; the per-character
  pixel loop is modelled separately as the ordered list of (pixel index,
  color) writes it performs.
- The framework global `actual_line` (number of physically visible rows,
  `actual_line_sum` in the source) is passed as an explicit parameter `R`.
-/

namespace DragonTextui

/-- Model of the Rust cast `i32 as usize`: sign extension to 64 bits, so a
negative `i32` becomes a number of magnitude about `2^64` (far beyond any
list length used by the kernel). -/
def usizeOfI32 (i : Int) : Nat :=
  if 0 ≤ i then i.toNat else (i + 2 ^ 64).toNat

/-- Model of the Rust cast `i32 as u32` (two's-complement reinterpretation). -/
def u32OfI32 (i : Int) : Nat :=
  (i % 2 ^ 32).toNat

/-- From `LineId::check`: `self.0 < max && self.0 >= 0`. -/
def lineIdCheck (id max : Int) : Bool :=
  id < max && 0 ≤ id

/-- From `LineIndex::check`: `self.0 < chars_per_line && self.0 >= 0`. -/
def lineIndexCheck (idx charsPerLine : Int) : Bool :=
  idx < charsPerLine && 0 ≤ idx

/-- One colored character cell, from `TextuiCharChromatic` (a cell holds an
optional character plus packed 24-bit foreground and background colors,
modelled as `Nat`). -/
structure TextuiCharChromatic where
  c : Option Char
  frcolor : Nat
  bkcolor : Nat
  deriving DecidableEq, Repr

/-- A blank cell with `FontColor::BLACK` (packs to 0) fore- and background,
as pushed by `TextuiVlineChromatic::new`. -/
def blackChar : TextuiCharChromatic :=
  ⟨none, 0, 0⟩

/-- One virtual line, from `TextuiVlineChromatic`: the cell array and the
per-line write column `index`. -/
structure TextuiVlineChromatic where
  chars : List TextuiCharChromatic
  index : Int
  deriving DecidableEq, Repr

/-- From `TextuiVlineChromatic::new`: `char_num` blank black cells, column 0. -/
def TextuiVlineChromatic.new (charNum : Nat) : TextuiVlineChromatic :=
  ⟨List.replicate charNum blackChar, 0⟩

/-- The window state, from `TextuiWindow` (the `id` field and the bitflag
wrapper are dropped; `chromatic` models `flags.contains(TEXTUI_CHROMATIC)`). -/
structure TextuiWindow where
  vline_sum : Int
  vlines_used : Int
  top_vline : Int
  vlines : List TextuiVlineChromatic
  vline_operating : Int
  chars_per_line : Int
  chromatic : Bool
  deriving DecidableEq, Repr

/-- From `TextuiWindow::new`: `vlines_num` fresh lines, `vlines_used = 1`,
both line pointers at 0. -/
def TextuiWindow.new (vlinesNum charsNum : Int) : TextuiWindow :=
  { vline_sum := vlinesNum
    vlines_used := 1
    top_vline := 0
    vlines := List.replicate vlinesNum.toNat (TextuiVlineChromatic.new charsNum.toNat)
    vline_operating := 0
    chars_per_line := charsNum
    chromatic := true }

/-- One render request issued to
`TextuiCharChromatic::textui_refresh_character`: the actual (physical) row it
was computed for, the column, and the cell content. -/
structure RenderCall where
  row : Int
  col : Int
  cell : TextuiCharChromatic
  deriving DecidableEq, Repr

/-- Outcome of an operation that renders but does not mutate the window
(`textui_refresh_characters` and the refresh helpers): the ordered render
calls on success, `err` for `Err(SystemError::EINVAL)`, `panic` for a Rust
panic (out-of-bounds indexing / `todo!()`). -/
inductive ResL where
  | ok : List RenderCall → ResL
  | err : List RenderCall → ResL
  | panic : ResL
  deriving DecidableEq, Repr

/-- Outcome of a window-mutating operation.  `err` carries the window because
a Rust `Err` propagated by `?` leaves the `&mut self` mutations already made
in place. -/
inductive ResW where
  | ok : TextuiWindow → List RenderCall → ResW
  | err : TextuiWindow → List RenderCall → ResW
  | panic : ResW
  deriving DecidableEq, Repr

/-- The window state carried by a non-panicking outcome. -/
def ResW.window? : ResW → Option TextuiWindow
  | .ok w _ => some w
  | .err w _ => some w
  | .panic => none

/-- Whether the outcome is an `Err`. -/
def ResW.isErr : ResW → Bool
  | .err _ _ => true
  | _ => false

/-- The `while i < count` loop inside `textui_refresh_characters`: render the
cells at columns `index, index+1, ...` of `vline`, `n` of them, at physical
row `actualLineId`.  Indexing `vline.chars[...]` out of range is a panic. -/
def refreshLoop (vline : TextuiVlineChromatic) (actualLineId : Int) :
    Int → Nat → ResL
  | _, 0 => .ok []
  | index, n + 1 =>
    match vline.chars[usizeOfI32 index]? with
    | none => .panic
    | some ch =>
      match refreshLoop vline actualLineId (index + 1) n with
      | .ok l => .ok (⟨actualLineId, index, ch⟩ :: l)
      | .err l => .err (⟨actualLineId, index, ch⟩ :: l)
      | .panic => .panic

/-- From `TextuiWindow::textui_refresh_characters`: bounds check, translation
of the virtual line to the physical row (`vline_id - top_vline`, plus
`actual_line_sum` when negative), then the render loop.  `R` is the framework
global `actual_line`. -/
def textui_refresh_characters (R : Int) (w : TextuiWindow)
    (vlineId start count : Int) : ResL :=
  if ¬ lineIdCheck vlineId w.vline_sum ∨ start + count > w.chars_per_line then
    .err []
  else
    let a := vlineId - w.top_vline
    let actualLineId := if a < 0 then a + R else a
    if w.chromatic then
      match w.vlines[usizeOfI32 vlineId]? with
      | none => .panic
      | some vline => refreshLoop vline actualLineId start count.toNat
    else
      .ok []

/-- From `TextuiWindow::textui_refresh_vline`: refresh one whole virtual
line; the plain-text variant is `todo!()`. -/
def textui_refresh_vline (R : Int) (w : TextuiWindow) (vlineId : Int) : ResL :=
  if w.chromatic then
    textui_refresh_characters R w vlineId 0 w.chars_per_line
  else
    .panic

/-- A run of consecutive `textui_refresh_vline` calls on lines
`i, i+1, ..., i+n-1` (the two `for`/`while` loops of
`textui_refresh_vlines`). -/
def refreshVlineSeq (R : Int) (w : TextuiWindow) : Int → Nat → ResL
  | _, 0 => .ok []
  | i, n + 1 =>
    match textui_refresh_vline R w i with
    | .ok l =>
      match refreshVlineSeq R w (i + 1) n with
      | .ok l2 => .ok (l ++ l2)
      | .err l2 => .err (l ++ l2)
      | .panic => .panic
    | .err l => .err l
    | .panic => .panic

/-- From `TextuiWindow::textui_refresh_vlines`: refresh lines
`start ..` up to `min(vline_sum, start+count)`, then wrap around refreshing
from line 0 while the remaining count is positive. -/
def textui_refresh_vlines (R : Int) (w : TextuiWindow) (start count : Int) :
    ResL :=
  let upper := min w.vline_sum (start + count)
  let n1 := (upper - start).toNat
  match refreshVlineSeq R w start n1 with
  | .ok l1 =>
    match refreshVlineSeq R w 0 (count - n1).toNat with
    | .ok l2 => .ok (l1 ++ l2)
    | .err l2 => .err (l1 ++ l2)
    | .panic => .panic
  | .err l => .err l
  | .panic => .panic

/-- The clearing loop `for i in 0..chars_per_line { if let Some(v_char) =
vline.chars.get_mut(i) { ... } }`: positions `0 .. n-1` are set to the blank
black cell, positions beyond the list length are silently skipped
(`get_mut` returns `None`). -/
def clearChars (chars : List TextuiCharChromatic) : Nat → List TextuiCharChromatic
  | 0 => chars
  | n + 1 => (clearChars chars n).set n blackChar

/-- Clearing a whole line and resetting its column to 0, as done by
`textui_new_line` on the new operating line and by the backspace path on the
abandoned line. -/
def clearVline (charsPerLine : Int) (vl : TextuiVlineChromatic) :
    TextuiVlineChromatic :=
  ⟨clearChars vl.chars charsPerLine.toNat, 0⟩

/-- From `TextuiWindow::textui_new_line`: advance `vline_operating` (wrapping
at `vline_sum`), clear the new operating line, then either scroll
(`vlines_used == actual_line` : advance `top_vline` with wrap and re-render
all visible rows) or count one more used line. -/
def textui_new_line (R : Int) (w : TextuiWindow) : ResW :=
  let w1 := { w with vline_operating := w.vline_operating + 1 }
  let w2 := if ¬ lineIdCheck w1.vline_operating w1.vline_sum then
              { w1 with vline_operating := 0 }
            else w1
  match w2.vlines[usizeOfI32 w2.vline_operating]? with
  | none => .panic
  | some vl =>
    let w3 := { w2 with
      vlines := w2.vlines.set (usizeOfI32 w2.vline_operating)
        (clearVline w2.chars_per_line vl) }
    if w3.vlines_used = R then
      let w4 := { w3 with top_vline := w3.top_vline + 1 }
      let w5 := if ¬ lineIdCheck w4.top_vline w4.vline_sum then
                  { w4 with top_vline := 0 }
                else w4
      match textui_refresh_vlines R w5 w5.top_vline R with
      | .ok l => .ok w5 l
      | .err l => .err w5 l
      | .panic => .panic
    else
      .ok { w3 with vlines_used := w3.vlines_used + 1 } []

/-- From `TextuiWindow::true_textui_putchar_window`: store the character and
colors into the cell at the operating line's current column (skipping the
store when `get_mut` is out of range), advance the column, render that one
cell, and open a new line when the old column was not strictly below
`chars_per_line - 1` (the reserved cursor column).  The plain-text variant is
`todo!()`. -/
def true_textui_putchar_window (R : Int) (w : TextuiWindow) (character : Char)
    (frcolor bkcolor : Nat) : ResW :=
  if w.chromatic then
    match w.vlines[usizeOfI32 w.vline_operating]? with
    | none => .panic
    | some vl =>
      let idx := usizeOfI32 vl.index
      let newChars :=
        match vl.chars[idx]? with
        | some _ => vl.chars.set idx ⟨some character, frcolor, bkcolor⟩
        | none => vl.chars
      let lineIndex := vl.index
      let vl2 : TextuiVlineChromatic := ⟨newChars, vl.index + 1⟩
      let w1 := { w with
        vlines := w.vlines.set (usizeOfI32 w.vline_operating) vl2 }
      match textui_refresh_characters R w1 w1.vline_operating lineIndex 1 with
      | .err l => .err w1 l
      | .panic => .panic
      | .ok l =>
        if ¬ lineIndexCheck lineIndex (w1.chars_per_line - 1) then
          match textui_new_line R w1 with
          | .ok w2 l2 => .ok w2 (l ++ l2)
          | .err w2 l2 => .err w2 (l ++ l2)
          | .panic => .panic
        else
          .ok w1 l
  else
    .panic

/-- The `while space_to_print > 0` loop of the tab branch of
`textui_putchar_window`: `n` writes of a space through
`true_textui_putchar_window`, stopping early on `Err`. -/
def tabLoop (R : Int) (frcolor bkcolor : Nat) : TextuiWindow → Nat → ResW
  | w, 0 => .ok w []
  | w, n + 1 =>
    match true_textui_putchar_window R w ' ' frcolor bkcolor with
    | .ok w1 l1 =>
      match tabLoop R frcolor bkcolor w1 n with
      | .ok w2 l2 => .ok w2 (l1 ++ l2)
      | .err w2 l2 => .err w2 (l1 ++ l2)
      | .panic => .panic
    | .err w1 l1 => .err w1 l1
    | .panic => .panic

/-- From `TextuiWindow::textui_putchar_window`: the full per-character state
machine.  `'\0'` and `'\r'` are no-ops; non-chromatic windows ignore the
character; `'\n'` opens a new line; `'\t'` reads the operating column once
and emits `8 - column % 8` spaces through the printable path; backspace
(`'\x08'`, here `Char.ofNat 8`) steps the column back, blanking the cell or
un-scrolling a whole line; every other character takes the printable path
(recovering first with a new line when the stored column is out of range).
Serial mirroring is external and not modelled. -/
def textui_putchar_window (R : Int) (w : TextuiWindow) (character : Char)
    (frcolor bkcolor : Nat) (isEnableWindow : Bool) : ResW :=
  if character = Char.ofNat 0 then .ok w []
  else if character = '\r' then .ok w []
  else if ¬ w.chromatic then .ok w []
  else if character = '\n' then
    if isEnableWindow then textui_new_line R w else .ok w []
  else if character = '\t' then
    if isEnableWindow then
      match w.vlines[usizeOfI32 w.vline_operating]? with
      | none => .panic
      | some vl => tabLoop R frcolor bkcolor w (8 - usizeOfI32 vl.index % 8)
    else .ok w []
  else if character = Char.ofNat 8 then
    if isEnableWindow then
      match w.vlines[usizeOfI32 w.vline_operating]? with
      | none => .panic
      | some vl =>
        let vl1 : TextuiVlineChromatic := ⟨vl.chars, vl.index - 1⟩
        let tmp := vl1.index
        let wA := { w with
          vlines := w.vlines.set (usizeOfI32 w.vline_operating) vl1 }
        if 0 ≤ tmp then
          let newChars :=
            match vl1.chars[usizeOfI32 tmp]? with
            | some ch =>
              vl1.chars.set (usizeOfI32 tmp) ⟨some ' ', ch.frcolor, bkcolor⟩
            | none => vl1.chars
          let wB := { wA with
            vlines := wA.vlines.set (usizeOfI32 wA.vline_operating)
              ⟨newChars, vl1.index⟩ }
          match textui_refresh_characters R wB wB.vline_operating tmp 1 with
          | .ok l => .ok wB l
          | .err l => .err wB l
          | .panic => .panic
        else
          let wB : TextuiWindow := { wA with
            vlines := wA.vlines.set (usizeOfI32 wA.vline_operating)
              (clearVline wA.chars_per_line vl1) }
          let wC : TextuiWindow :=
            { wB with vline_operating := wB.vline_operating - 1 }
          let wD : TextuiWindow :=
            if wC.vline_operating < 0 then
              { wC with vline_operating := wC.vline_sum - 1 }
            else wC
          let wE : TextuiWindow :=
            if wD.vlines_used > R then
              let wx : TextuiWindow := { wD with top_vline := wD.top_vline - 1 }
              if wx.top_vline < 0 then
                { wx with top_vline := wx.vline_sum - 1 }
              else wx
            else wD
          let wF : TextuiWindow := { wE with vlines_used := wE.vlines_used - 1 }
          match textui_refresh_vlines R wF wF.top_vline R with
          | .ok l => .ok wF l
          | .err l => .err wF l
          | .panic => .panic
    else .ok w []
  else
    if isEnableWindow then
      match w.vlines[usizeOfI32 w.vline_operating]? with
      | none => .panic
      | some vl =>
        if ¬ lineIndexCheck vl.index w.chars_per_line then
          match textui_new_line R w with
          | .ok w1 l1 =>
            match true_textui_putchar_window R w1 character frcolor bkcolor with
            | .ok w2 l2 => .ok w2 (l1 ++ l2)
            | .err w2 l2 => .err w2 (l1 ++ l2)
            | .panic => .panic
          | .err w1 l1 => .err w1 l1
          | .panic => .panic
        else
          true_textui_putchar_window R w character frcolor bkcolor
    else .ok w []

/-- From `textui_putstr` (initialized path): feed the characters one at a
time to `textui_putchar_window`, propagating the first `Err` through `?`. -/
def textui_putstr (R : Int) (w : TextuiWindow) (s : List Char)
    (frcolor bkcolor : Nat) (isEnableWindow : Bool) : ResW :=
  match s with
  | [] => .ok w []
  | c :: rest =>
    match textui_putchar_window R w c frcolor bkcolor isEnableWindow with
    | .ok w1 l1 =>
      match textui_putstr R w1 rest frcolor bkcolor isEnableWindow with
      | .ok w2 l2 => .ok w2 (l1 ++ l2)
      | .err w2 l2 => .err w2 (l1 ++ l2)
      | .panic => .panic
    | .err w1 l1 => .err w1 l1
    | .panic => .panic

/-- A glyph bitmap, from `Font` (`[u8; 16]`, one 8-bit mask per pixel row). -/
structure Font where
  data : List Nat
  deriving DecidableEq, Repr

/-- From `Font::is_frcolor`: `let testbit = 1 << (8 - width); w & testbit != 0`
on `u8`.  The shift amount `8 - width` is 8 at `width = 0`, which overflows
the 8-bit shift (a panic under debug assertions); the model uses release
semantics, where the shift amount is masked modulo the bit width. -/
def Font.is_frcolor (f : Font) (height width : Nat) : Bool :=
  let wRow := f.data.getD height 0
  let testbit := (1 <<< ((8 - width) % 8)) % 256
  (wRow &&& testbit) != 0

/-- From `TextuiBuf::get_index_by_x_y`: linear pixel index in a buffer of
width `bufWidth` (usize arithmetic). -/
def get_index_by_x_y (bufWidth x y : Nat) : Nat :=
  bufWidth * y + x

/-- From `TextuiBuf::get_start_index_by_lineid_lineindex`: top-left pixel
index of the glyph cell at (physical row `lineid`, column `lineindex`);
`u32` multiplications wrap, the final usize sum wraps at `2^64`. -/
def get_start_index_by_lineid_lineindex (bufWidth : Nat)
    (lineid lineindex : Int) : Nat :=
  let x := u32OfI32 lineindex * 8 % 2 ^ 32
  let y := u32OfI32 lineid * 16 % 2 ^ 32
  get_index_by_x_y bufWidth x y % 2 ^ 64

/-- The nested pixel loop of `TextuiCharChromatic::textui_refresh_character`:
for each of `rows` glyph rows starting at glyph row `i` and buffer index
`count`, write the 8 pixels of the row (foreground color where `is_frcolor`
holds, background otherwise), then jump to the same column one buffer row
down (`get_index_of_next_line`). -/
def renderCharRows (f : Font) (frcolor bkcolor bufWidth : Nat) :
    Nat → Nat → Nat → List (Nat × Nat)
  | _, _, 0 => []
  | i, count, rows + 1 =>
    ((List.range 8).map fun j =>
      (count + j, if f.is_frcolor i j then frcolor else bkcolor)) ++
    renderCharRows f frcolor bkcolor bufWidth (i + 1)
      ((bufWidth + count) % 2 ^ 64) rows

/-- From `TextuiCharChromatic::textui_refresh_character`: the ordered
(pixel index, color) writes performed when rendering one cell at
(physical row `lineid`, column `lineindex`).  The glyph lookup
(`Font::get_font`, backed by the external font table) is a parameter. -/
def TextuiCharChromatic.textui_refresh_character (ch : TextuiCharChromatic)
    (glyph : Font) (bufWidth : Nat) (lineid lineindex : Int) :
    List (Nat × Nat) :=
  renderCharRows glyph ch.frcolor ch.bkcolor bufWidth 0
    (get_start_index_by_lineid_lineindex bufWidth lineid lineindex) 16

/-! ## Helper lemmas -/

theorem usizeOfI32_of_nonneg {i : Int} (h : 0 ≤ i) : usizeOfI32 i = i.toNat := by
  simp [usizeOfI32, h]

/-- Spec-side iteration of a window operation: `n` successive applications,
accumulating render calls and stopping at the first error, exactly the shape
of the source's space-printing loop. -/
def applyN (f : TextuiWindow → ResW) : Nat → TextuiWindow → ResW
  | 0, w => .ok w []
  | n + 1, w =>
    match f w with
    | .ok w1 l1 =>
      match applyN f n w1 with
      | .ok w2 l2 => .ok w2 (l1 ++ l2)
      | .err w2 l2 => .err w2 (l1 ++ l2)
      | .panic => .panic
    | .err w1 l1 => .err w1 l1
    | .panic => .panic

theorem tabLoop_eq_applyN (R : Int) (fr bk : Nat) (w : TextuiWindow) (n : Nat) :
    tabLoop R fr bk w n =
      applyN (fun w2 => true_textui_putchar_window R w2 ' ' fr bk) n w := by
  induction n generalizing w with
  | zero => rfl
  | succ n ih =>
    show (match true_textui_putchar_window R w ' ' fr bk with
      | .ok w1 l1 =>
        match tabLoop R fr bk w1 n with
        | .ok w2 l2 => ResW.ok w2 (l1 ++ l2)
        | .err w2 l2 => ResW.err w2 (l1 ++ l2)
        | .panic => ResW.panic
      | .err w1 l1 => ResW.err w1 l1
      | .panic => ResW.panic) = _
    rw [applyN]
    cases true_textui_putchar_window R w ' ' fr bk with
    | ok w1 l1 =>
      try dsimp only
      rw [ih]
    | err w1 l1 => rfl
    | panic => rfl

theorem refreshLoop_row_of_mem (vl : TextuiVlineChromatic) (row : Int) :
    ∀ (n : Nat) (start : Int) (l : List RenderCall),
      refreshLoop vl row start n = ResL.ok l → ∀ rc ∈ l, rc.row = row := by
  intro n
  induction n with
  | zero =>
    intro start l h rc hm
    rw [refreshLoop] at h
    cases h
    cases hm
  | succ n ih =>
    intro start l h rc hm
    rw [refreshLoop] at h
    cases hg : vl.chars[usizeOfI32 start]? with
    | none => rw [hg] at h; cases h
    | some ch =>
      rw [hg] at h
      cases hr : refreshLoop vl row (start + 1) n with
      | ok l0 =>
        rw [hr] at h
        cases h
        rcases List.mem_cons.mp hm with h1 | h1
        · rw [h1]
        · exact ih (start + 1) l0 hr rc h1
      | err l0 => rw [hr] at h; cases h
      | panic => rw [hr] at h; cases h

theorem int_wrap_eq_emod {a N : Int} (hlo : -N < a) (hhi : a < N) :
    (if a < 0 then a + N else a) = a % N := by
  rcases lt_or_le a 0 with h | h
  · rw [if_pos h]
    have h1 : (a + N * 1) % N = a % N := @Int.add_mul_emod_self_left a N 1
    have h2 : (a + N) % N = a + N := Int.emod_eq_of_lt (by omega) (by omega)
    calc a + N = (a + N) % N := h2.symm
      _ = (a + N * 1) % N := by rw [mul_one]
      _ = a % N := h1
  · rw [if_neg (not_lt.mpr h)]
    exact (Int.emod_eq_of_lt h hhi).symm

theorem mem_of_getElem?_some {α : Type} {l : List α} {n : Nat} {a : α}
    (h : l[n]? = some a) : a ∈ l := by
  have h2 : n < l.length := by
    by_contra hc
    rw [List.getElem?_eq_none_iff.mpr (by omega)] at h
    cases h
  rw [List.getElem?_eq_getElem h2] at h
  cases h
  exact List.getElem_mem h2

theorem refreshLoop_ok_of_bounds (vl : TextuiVlineChromatic) (row : Int) :
    ∀ (n : Nat) (start : Int), 0 ≤ start →
      start + n ≤ (vl.chars.length : Int) →
      ∃ l, refreshLoop vl row start n = ResL.ok l := by
  intro n
  induction n with
  | zero => exact fun start _ _ => ⟨[], rfl⟩
  | succ n ih =>
    intro start h0 hn
    have hlt : start.toNat < vl.chars.length := by omega
    have hg : vl.chars[usizeOfI32 start]? = some vl.chars[start.toNat] := by
      rw [usizeOfI32_of_nonneg h0]
      exact List.getElem?_eq_getElem hlt
    obtain ⟨l0, hl0⟩ := ih (start + 1) (by omega) (by omega)
    refine ⟨⟨row, start, vl.chars[start.toNat]⟩ :: l0, ?_⟩
    simp only [refreshLoop, hg, hl0]

theorem refresh_characters_ok (R N C : Int) (w : TextuiWindow)
    (vlineId start count : Int)
    (hsum : w.vline_sum = N) (hcpl : w.chars_per_line = C)
    (hch : w.chromatic = true) (hlen : w.vlines.length = N.toNat)
    (hlines : ∀ vl ∈ w.vlines, vl.chars.length = C.toNat)
    (h0 : 0 ≤ start) (hv0 : 0 ≤ vlineId) (hv1 : vlineId < N)
    (hcnt : start + count ≤ C) :
    ∃ l, textui_refresh_characters R w vlineId start count = ResL.ok l := by
  have hbool : lineIdCheck vlineId w.vline_sum = true := by
    simp only [lineIdCheck, hsum, Bool.and_eq_true, decide_eq_true_eq]
    exact ⟨hv1, hv0⟩
  have hcheck : ¬ (¬ lineIdCheck vlineId w.vline_sum = true ∨
      start + count > w.chars_per_line) := by
    intro hor
    rcases hor with h1 | h2
    · exact h1 hbool
    · rw [hcpl] at h2
      omega
  have hvlt : vlineId.toNat < w.vlines.length := by omega
  have hg : w.vlines[usizeOfI32 vlineId]? = some w.vlines[vlineId.toNat] := by
    rw [usizeOfI32_of_nonneg hv0]
    exact List.getElem?_eq_getElem hvlt
  have hclen := hlines _ (List.getElem_mem hvlt)
  rcases le_or_lt count 0 with hcle | hcpos
  · have hz : count.toNat = 0 := by omega
    refine ⟨[], ?_⟩
    simp only [textui_refresh_characters]
    rw [if_neg hcheck, if_pos hch, hg, hz]
    rfl
  · obtain ⟨l, hl⟩ := refreshLoop_ok_of_bounds w.vlines[vlineId.toNat]
      (if vlineId - w.top_vline < 0 then vlineId - w.top_vline + R
       else vlineId - w.top_vline)
      count.toNat start h0 (by rw [hclen]; omega)
    refine ⟨l, ?_⟩
    simp only [textui_refresh_characters]
    rw [if_neg hcheck, if_pos hch, hg]
    exact hl

theorem textui_refresh_vline_ok (R N C : Int) (w : TextuiWindow) (vlineId : Int)
    (hsum : w.vline_sum = N) (hcpl : w.chars_per_line = C)
    (hch : w.chromatic = true) (hlen : w.vlines.length = N.toNat)
    (hlines : ∀ vl ∈ w.vlines, vl.chars.length = C.toNat)
    (hv0 : 0 ≤ vlineId) (hv1 : vlineId < N) :
    ∃ l, textui_refresh_vline R w vlineId = ResL.ok l := by
  obtain ⟨l, hl⟩ := refresh_characters_ok R N C w vlineId 0 w.chars_per_line
    hsum hcpl hch hlen hlines le_rfl hv0 hv1 (by omega)
  exact ⟨l, by rw [textui_refresh_vline, if_pos hch]; exact hl⟩

theorem refreshVlineSeq_ok (R N C : Int) (w : TextuiWindow)
    (hsum : w.vline_sum = N) (hcpl : w.chars_per_line = C)
    (hch : w.chromatic = true) (hlen : w.vlines.length = N.toNat)
    (hlines : ∀ vl ∈ w.vlines, vl.chars.length = C.toNat) :
    ∀ (n : Nat) (start : Int), 0 ≤ start → start + n ≤ N →
      ∃ l, refreshVlineSeq R w start n = ResL.ok l := by
  intro n
  induction n with
  | zero => exact fun start _ _ => ⟨[], rfl⟩
  | succ n ih =>
    intro start h0 hn
    obtain ⟨l1, h1⟩ := textui_refresh_vline_ok R N C w start
      hsum hcpl hch hlen hlines h0 (by omega)
    obtain ⟨l2, h2⟩ := ih (start + 1) (by omega) (by omega)
    exact ⟨l1 ++ l2, by rw [refreshVlineSeq, h1, h2]⟩

theorem textui_refresh_vlines_ok (R N C : Int) (w : TextuiWindow)
    (start count : Int)
    (hsum : w.vline_sum = N) (hcpl : w.chars_per_line = C)
    (hch : w.chromatic = true) (hlen : w.vlines.length = N.toNat)
    (hlines : ∀ vl ∈ w.vlines, vl.chars.length = C.toNat)
    (h0 : 0 ≤ start) (h1 : start < N) (hc0 : 0 ≤ count) (hc1 : count ≤ N) :
    ∃ l, textui_refresh_vlines R w start count = ResL.ok l := by
  obtain ⟨l1, hl1⟩ := refreshVlineSeq_ok R N C w hsum hcpl hch hlen hlines
    (min w.vline_sum (start + count) - start).toNat start h0 (by omega)
  obtain ⟨l2, hl2⟩ := refreshVlineSeq_ok R N C w hsum hcpl hch hlen hlines
    (count - ((min w.vline_sum (start + count) - start).toNat : Int)).toNat 0
    le_rfl (by omega)
  exact ⟨l1 ++ l2, by simp only [textui_refresh_vlines]; rw [hl1, hl2]⟩

theorem clearChars_length (chars : List TextuiCharChromatic) :
    ∀ n, (clearChars chars n).length = chars.length := by
  intro n
  induction n with
  | zero => rfl
  | succ n ih => rw [clearChars, List.length_set, ih]

theorem clearChars_getElem? (chars : List TextuiCharChromatic) :
    ∀ (n : Nat) (i : Nat), (clearChars chars n)[i]? =
      if i < n ∧ i < chars.length then some blackChar else chars[i]? := by
  intro n
  induction n with
  | zero =>
    intro i
    rw [clearChars]
    split_ifs with h
    · omega
    · rfl
  | succ n ih =>
    intro i
    rw [clearChars, List.getElem?_set, clearChars_length, ih]
    split_ifs <;>
      first
        | rfl
        | omega
        | (exact (List.getElem?_eq_none_iff.mpr (by omega)).symm)
        | (exact List.getElem?_eq_none_iff.mpr (by omega))

theorem clearVline_eq (C : Int) (vl : TextuiVlineChromatic)
    (h : vl.chars.length = C.toNat) :
    clearVline C vl = ⟨List.replicate C.toNat blackChar, 0⟩ := by
  unfold clearVline
  congr 1
  apply List.ext_getElem?
  intro i
  rw [clearChars_getElem? vl.chars C.toNat i, List.getElem?_replicate]
  by_cases hi : i < C.toNat
  · rw [if_pos ⟨hi, by omega⟩, if_pos hi]
  · rw [if_neg (by omega), if_neg hi]
    exact List.getElem?_eq_none_iff.mpr (by omega)

/-- Behavior of `textui_new_line` on a structurally well-formed window when
the visible-row count `R` satisfies `0 ≤ R ≤ vline_sum`: the operation
succeeds, the operating line advances with wrap-around and is cleared, other
lines are untouched, and either the window scrolls (`vlines_used = R`) or
one more line is counted as used. -/
theorem textui_new_line_spec (R N C : Int) (w : TextuiWindow)
    (hsum : w.vline_sum = N) (hcpl : w.chars_per_line = C)
    (hch : w.chromatic = true) (hlen : w.vlines.length = N.toNat)
    (hlines : ∀ vl ∈ w.vlines, vl.chars.length = C.toNat)
    (hop0 : 0 ≤ w.vline_operating) (hop1 : w.vline_operating < N)
    (htop0 : 0 ≤ w.top_vline) (htop1 : w.top_vline < N)
    (hR0 : 0 ≤ R) (hRN : R ≤ N) :
    ∃ w2 l, textui_new_line R w = ResW.ok w2 l ∧
      w2.vline_sum = N ∧ w2.chars_per_line = C ∧ w2.chromatic = true ∧
      w2.vlines.length = N.toNat ∧
      (∀ vl ∈ w2.vlines, vl ∈ w.vlines ∨
        vl = ⟨List.replicate C.toNat blackChar, 0⟩) ∧
      w2.vline_operating =
        (if w.vline_operating + 1 < N then w.vline_operating + 1 else 0) ∧
      w2.vlines[usizeOfI32 w2.vline_operating]? =
        some ⟨List.replicate C.toNat blackChar, 0⟩ ∧
      (∀ i : Nat, i ≠ usizeOfI32 w2.vline_operating →
        w2.vlines[i]? = w.vlines[i]?) ∧
      (w.vlines_used = R →
        w2.vlines_used = R ∧
        w2.top_vline = (if w.top_vline + 1 < N then w.top_vline + 1 else 0)) ∧
      (w.vlines_used ≠ R →
        w2.vlines_used = w.vlines_used + 1 ∧ w2.top_vline = w.top_vline) := by
  have hNpos : 0 < N := by omega
  unfold textui_new_line
  try dsimp only
  by_cases hwc : w.vline_operating + 1 < N
  · -- the operating pointer advances without wrap
    have hcc : ¬ ¬ lineIdCheck (w.vline_operating + 1) w.vline_sum = true := by
      simp only [lineIdCheck, hsum, Bool.and_eq_true, decide_eq_true_eq, not_not]
      exact ⟨hwc, by omega⟩
    simp only [if_neg hcc]
    try dsimp only
    have hoplt : (w.vline_operating + 1).toNat < w.vlines.length := by omega
    have hvlx : w.vlines[usizeOfI32 (w.vline_operating + 1)]? =
        some w.vlines[(w.vline_operating + 1).toNat] := by
      rw [usizeOfI32_of_nonneg (show (0 : Int) ≤ w.vline_operating + 1 by omega)]
      exact List.getElem?_eq_getElem hoplt
    have hclear : clearVline w.chars_per_line
        w.vlines[(w.vline_operating + 1).toNat] =
        ⟨List.replicate C.toNat blackChar, 0⟩ := by
      rw [hcpl]
      exact clearVline_eq C _ (hlines _ (List.getElem_mem hoplt))
    simp only [hvlx, hclear]
    try dsimp only
    by_cases hu : w.vlines_used = R
    · -- scroll path
      simp only [if_pos hu]
      by_cases htc : w.top_vline + 1 < N
      · have hccT : ¬ ¬ lineIdCheck (w.top_vline + 1) w.vline_sum = true := by
          simp only [lineIdCheck, hsum, Bool.and_eq_true, decide_eq_true_eq,
            not_not]
          exact ⟨htc, by omega⟩
        simp only [if_neg hccT]
        try dsimp only
        obtain ⟨lok, hok⟩ := textui_refresh_vlines_ok R N C
          { w with
            vline_operating := w.vline_operating + 1
            vlines := w.vlines.set (usizeOfI32 (w.vline_operating + 1))
              ⟨List.replicate C.toNat blackChar, 0⟩
            top_vline := w.top_vline + 1 }
          (w.top_vline + 1) R hsum hcpl hch
          (by dsimp only; rw [List.length_set]; exact hlen)
          (by
            try dsimp only
            intro vl hm
            rcases List.mem_or_eq_of_mem_set hm with h | h
            · exact hlines _ h
            · rw [h]
              exact List.length_replicate ..)
          (by omega) htc hR0 hRN
        simp only [hok]
        refine ⟨_, lok, rfl, hsum, hcpl, hch, ?_, ?_, ?_, ?_, ?_, ?_, ?_⟩
        · dsimp only
          rw [List.length_set]
          exact hlen
        · dsimp only
          intro vl hm
          rcases List.mem_or_eq_of_mem_set hm with h | h
          · exact Or.inl h
          · exact Or.inr h
        · dsimp only
          rw [if_pos hwc]
        · dsimp only
          rw [usizeOfI32_of_nonneg (show (0 : Int) ≤ w.vline_operating + 1 by omega)]
          exact List.getElem?_set_eq_of_lt _ (by rw [hlen] at hoplt; omega)
        · intro i hi
          try dsimp only
          rw [usizeOfI32_of_nonneg (show (0 : Int) ≤ w.vline_operating + 1 by omega)] at hi ⊢
          exact List.getElem?_set_ne (fun h => hi h.symm)
        · intro _
          exact ⟨hu, by rw [if_pos htc]⟩
        · intro hne
          exact absurd hu hne
      · have hccT : ¬ lineIdCheck (w.top_vline + 1) w.vline_sum = true := by
          simp only [lineIdCheck, hsum, Bool.and_eq_true, decide_eq_true_eq,
            not_and]
          intro h
          omega
        simp only [if_pos hccT]
        try dsimp only
        obtain ⟨lok, hok⟩ := textui_refresh_vlines_ok R N C
          { w with
            vline_operating := w.vline_operating + 1
            vlines := w.vlines.set (usizeOfI32 (w.vline_operating + 1))
              ⟨List.replicate C.toNat blackChar, 0⟩
            top_vline := 0 }
          0 R hsum hcpl hch
          (by dsimp only; rw [List.length_set]; exact hlen)
          (by
            try dsimp only
            intro vl hm
            rcases List.mem_or_eq_of_mem_set hm with h | h
            · exact hlines _ h
            · rw [h]
              exact List.length_replicate ..)
          le_rfl hNpos hR0 hRN
        simp only [hok]
        refine ⟨_, lok, rfl, hsum, hcpl, hch, ?_, ?_, ?_, ?_, ?_, ?_, ?_⟩
        · dsimp only
          rw [List.length_set]
          exact hlen
        · dsimp only
          intro vl hm
          rcases List.mem_or_eq_of_mem_set hm with h | h
          · exact Or.inl h
          · exact Or.inr h
        · dsimp only
          rw [if_pos hwc]
        · dsimp only
          rw [usizeOfI32_of_nonneg (show (0 : Int) ≤ w.vline_operating + 1 by omega)]
          exact List.getElem?_set_eq_of_lt _ (by rw [hlen] at hoplt; omega)
        · intro i hi
          try dsimp only
          rw [usizeOfI32_of_nonneg (show (0 : Int) ≤ w.vline_operating + 1 by omega)] at hi ⊢
          exact List.getElem?_set_ne (fun h => hi h.symm)
        · intro _
          exact ⟨hu, by rw [if_neg htc]⟩
        · intro hne
          exact absurd hu hne
    · -- no scroll: one more used line
      simp only [if_neg hu]
      refine ⟨_, [], rfl, hsum, hcpl, hch, ?_, ?_, ?_, ?_, ?_, ?_, ?_⟩
      · dsimp only
        rw [List.length_set]
        exact hlen
      · dsimp only
        intro vl hm
        rcases List.mem_or_eq_of_mem_set hm with h | h
        · exact Or.inl h
        · exact Or.inr h
      · dsimp only
        rw [if_pos hwc]
      · dsimp only
        rw [usizeOfI32_of_nonneg (show (0 : Int) ≤ w.vline_operating + 1 by omega)]
        exact List.getElem?_set_eq_of_lt _ (by rw [hlen] at hoplt; omega)
      · intro i hi
        try dsimp only
        rw [usizeOfI32_of_nonneg (show (0 : Int) ≤ w.vline_operating + 1 by omega)] at hi ⊢
        exact List.getElem?_set_ne (fun h => hi h.symm)
      · intro h
        exact absurd h hu
      · intro _
        exact ⟨rfl, rfl⟩
  · -- the operating pointer wraps to 0
    have hcc : ¬ lineIdCheck (w.vline_operating + 1) w.vline_sum = true := by
      simp only [lineIdCheck, hsum, Bool.and_eq_true, decide_eq_true_eq, not_and]
      intro h
      omega
    simp only [if_pos hcc]
    try dsimp only
    have hoplt : (0 : Int).toNat < w.vlines.length := by omega
    have hvlx : w.vlines[usizeOfI32 (0 : Int)]? =
        some w.vlines[(0 : Int).toNat] := by
      rw [usizeOfI32_of_nonneg le_rfl]
      exact List.getElem?_eq_getElem hoplt
    have hclear : clearVline w.chars_per_line w.vlines[(0 : Int).toNat] =
        ⟨List.replicate C.toNat blackChar, 0⟩ := by
      rw [hcpl]
      exact clearVline_eq C _ (hlines _ (List.getElem_mem hoplt))
    simp only [hvlx, hclear]
    try dsimp only
    by_cases hu : w.vlines_used = R
    · simp only [if_pos hu]
      by_cases htc : w.top_vline + 1 < N
      · have hccT : ¬ ¬ lineIdCheck (w.top_vline + 1) w.vline_sum = true := by
          simp only [lineIdCheck, hsum, Bool.and_eq_true, decide_eq_true_eq,
            not_not]
          exact ⟨htc, by omega⟩
        simp only [if_neg hccT]
        try dsimp only
        obtain ⟨lok, hok⟩ := textui_refresh_vlines_ok R N C
          { w with
            vline_operating := (0 : Int)
            vlines := w.vlines.set (usizeOfI32 (0 : Int))
              ⟨List.replicate C.toNat blackChar, 0⟩
            top_vline := w.top_vline + 1 }
          (w.top_vline + 1) R hsum hcpl hch
          (by dsimp only; rw [List.length_set]; exact hlen)
          (by
            try dsimp only
            intro vl hm
            rcases List.mem_or_eq_of_mem_set hm with h | h
            · exact hlines _ h
            · rw [h]
              exact List.length_replicate ..)
          (by omega) htc hR0 hRN
        simp only [hok]
        refine ⟨_, lok, rfl, hsum, hcpl, hch, ?_, ?_, ?_, ?_, ?_, ?_, ?_⟩
        · dsimp only
          rw [List.length_set]
          exact hlen
        · dsimp only
          intro vl hm
          rcases List.mem_or_eq_of_mem_set hm with h | h
          · exact Or.inl h
          · exact Or.inr h
        · dsimp only
          rw [if_neg hwc]
        · dsimp only
          rw [usizeOfI32_of_nonneg le_rfl]
          exact List.getElem?_set_eq_of_lt _ (by omega)
        · intro i hi
          try dsimp only
          rw [usizeOfI32_of_nonneg le_rfl] at hi ⊢
          exact List.getElem?_set_ne (fun h => hi h.symm)
        · intro _
          exact ⟨hu, by rw [if_pos htc]⟩
        · intro hne
          exact absurd hu hne
      · have hccT : ¬ lineIdCheck (w.top_vline + 1) w.vline_sum = true := by
          simp only [lineIdCheck, hsum, Bool.and_eq_true, decide_eq_true_eq,
            not_and]
          intro h
          omega
        simp only [if_pos hccT]
        try dsimp only
        obtain ⟨lok, hok⟩ := textui_refresh_vlines_ok R N C
          { w with
            vline_operating := (0 : Int)
            vlines := w.vlines.set (usizeOfI32 (0 : Int))
              ⟨List.replicate C.toNat blackChar, 0⟩
            top_vline := 0 }
          0 R hsum hcpl hch
          (by dsimp only; rw [List.length_set]; exact hlen)
          (by
            try dsimp only
            intro vl hm
            rcases List.mem_or_eq_of_mem_set hm with h | h
            · exact hlines _ h
            · rw [h]
              exact List.length_replicate ..)
          le_rfl hNpos hR0 hRN
        simp only [hok]
        refine ⟨_, lok, rfl, hsum, hcpl, hch, ?_, ?_, ?_, ?_, ?_, ?_, ?_⟩
        · dsimp only
          rw [List.length_set]
          exact hlen
        · dsimp only
          intro vl hm
          rcases List.mem_or_eq_of_mem_set hm with h | h
          · exact Or.inl h
          · exact Or.inr h
        · dsimp only
          rw [if_neg hwc]
        · dsimp only
          rw [usizeOfI32_of_nonneg le_rfl]
          exact List.getElem?_set_eq_of_lt _ (by omega)
        · intro i hi
          try dsimp only
          rw [usizeOfI32_of_nonneg le_rfl] at hi ⊢
          exact List.getElem?_set_ne (fun h => hi h.symm)
        · intro _
          exact ⟨hu, by rw [if_neg htc]⟩
        · intro hne
          exact absurd hu hne
    · simp only [if_neg hu]
      refine ⟨_, [], rfl, hsum, hcpl, hch, ?_, ?_, ?_, ?_, ?_, ?_, ?_⟩
      · dsimp only
        rw [List.length_set]
        exact hlen
      · dsimp only
        intro vl hm
        rcases List.mem_or_eq_of_mem_set hm with h | h
        · exact Or.inl h
        · exact Or.inr h
      · dsimp only
        rw [if_neg hwc]
      · dsimp only
        rw [usizeOfI32_of_nonneg le_rfl]
        exact List.getElem?_set_eq_of_lt _ (by omega)
      · intro i hi
        try dsimp only
        rw [usizeOfI32_of_nonneg le_rfl] at hi ⊢
        exact List.getElem?_set_ne (fun h => hi h.symm)
      · intro h
        exact absurd h hu
      · intro _
        exact ⟨rfl, rfl⟩

/-- Feeding `'\n'` to `textui_putchar_window` on a chromatic window with
output enabled runs exactly `textui_new_line`. -/
theorem putchar_newline_eq (R : Int) (w : TextuiWindow) (fr bk : Nat)
    (hch : w.chromatic = true) :
    textui_putchar_window R w '\n' fr bk true = textui_new_line R w := by
  rw [textui_putchar_window,
    if_neg (by decide : ¬ ('\n' : Char) = Char.ofNat 0),
    if_neg (by decide : ¬ ('\n' : Char) = '\r'),
    if_neg (by simp [hch]),
    if_pos rfl, if_pos rfl]

theorem lt_length_of_getElem?_some {α : Type} {l : List α} {n : Nat} {a : α}
    (h : l[n]? = some a) : n < l.length := by
  by_contra hc
  rw [List.getElem?_eq_none_iff.mpr (by omega)] at h
  cases h

theorem wrap_eq_emod {t N : Int} (h0 : 0 ≤ t) (h1 : t < N) :
    (if t + 1 < N then t + 1 else 0) = (t + 1) % N := by
  by_cases h : t + 1 < N
  · rw [if_pos h, Int.emod_eq_of_lt (by omega) h]
  · rw [if_neg h]
    have ht : t + 1 = N := by omega
    rw [ht, Int.emod_self]

theorem refreshLoop_one (vl : TextuiVlineChromatic) (row idx : Int)
    (ch : TextuiCharChromatic) (hg : vl.chars[usizeOfI32 idx]? = some ch) :
    refreshLoop vl row idx 1 = ResL.ok [⟨row, idx, ch⟩] := by
  simp only [refreshLoop, hg]

/-- One-cell refresh (`count = 1`) with both indices valid renders exactly
that cell at the translated physical row. -/
theorem refresh_characters_single (R : Int) (w : TextuiWindow)
    (vl : TextuiVlineChromatic) (vid idx : Int) (ch : TextuiCharChromatic)
    (hcheck1 : lineIdCheck vid w.vline_sum = true)
    (hcheck2 : idx + 1 ≤ w.chars_per_line)
    (hch : w.chromatic = true)
    (hvl : w.vlines[usizeOfI32 vid]? = some vl)
    (hg : vl.chars[usizeOfI32 idx]? = some ch) :
    textui_refresh_characters R w vid idx 1 =
      ResL.ok [⟨if vid - w.top_vline < 0 then vid - w.top_vline + R
                else vid - w.top_vline, idx, ch⟩] := by
  have hnot : ¬ (¬ lineIdCheck vid w.vline_sum = true ∨
      idx + 1 > w.chars_per_line) := by
    intro hor
    rcases hor with h | h
    · exact h hcheck1
    · omega
  simp only [textui_refresh_characters]
  rw [if_neg hnot, if_pos hch, hvl]
  exact refreshLoop_one vl _ idx ch hg

/-- `true_textui_putchar_window` when the cursor is strictly below the
reserved column `chars_per_line − 1`: the cell is written and rendered, the
column advances, and no new line is opened. -/
theorem true_putchar_mid (R : Int) (w : TextuiWindow)
    (vl : TextuiVlineChromatic) (ch : Char) (fr bk : Nat)
    (hch : w.chromatic = true)
    (hvl : w.vlines[usizeOfI32 w.vline_operating]? = some vl)
    (hop0 : 0 ≤ w.vline_operating)
    (hcheck1 : lineIdCheck w.vline_operating w.vline_sum = true)
    (hidx0 : 0 ≤ vl.index) (hidx1 : vl.index < w.chars_per_line - 1)
    (hcell : vl.index.toNat < vl.chars.length) :
    true_textui_putchar_window R w ch fr bk =
      ResW.ok
        { w with
          vlines := w.vlines.set (usizeOfI32 w.vline_operating)
            ⟨vl.chars.set (usizeOfI32 vl.index) ⟨some ch, fr, bk⟩,
              vl.index + 1⟩ }
        [⟨if w.vline_operating - w.top_vline < 0
           then w.vline_operating - w.top_vline + R
           else w.vline_operating - w.top_vline, vl.index,
           ⟨some ch, fr, bk⟩⟩] := by
  have hcellg : vl.chars[usizeOfI32 vl.index]? = some vl.chars[vl.index.toNat] := by
    rw [usizeOfI32_of_nonneg hidx0]
    exact List.getElem?_eq_getElem hcell
  have hg2 : (vl.chars.set (usizeOfI32 vl.index)
      ⟨some ch, fr, bk⟩)[usizeOfI32 vl.index]? = some ⟨some ch, fr, bk⟩ := by
    rw [usizeOfI32_of_nonneg hidx0]
    exact List.getElem?_set_eq_of_lt _ hcell
  have hvl2 : ({ w with
      vlines := w.vlines.set (usizeOfI32 w.vline_operating)
        ⟨vl.chars.set (usizeOfI32 vl.index) ⟨some ch, fr, bk⟩, vl.index + 1⟩ } :
      TextuiWindow).vlines[usizeOfI32 w.vline_operating]? =
      some ⟨vl.chars.set (usizeOfI32 vl.index) ⟨some ch, fr, bk⟩,
        vl.index + 1⟩ := by
    try dsimp only
    exact List.getElem?_set_eq_of_lt _ (lt_length_of_getElem?_some hvl)
  have hrefresh := refresh_characters_single R
    { w with
      vlines := w.vlines.set (usizeOfI32 w.vline_operating)
        ⟨vl.chars.set (usizeOfI32 vl.index) ⟨some ch, fr, bk⟩, vl.index + 1⟩ }
    ⟨vl.chars.set (usizeOfI32 vl.index) ⟨some ch, fr, bk⟩, vl.index + 1⟩
    w.vline_operating vl.index ⟨some ch, fr, bk⟩
    hcheck1 (by dsimp only; omega) hch hvl2 hg2
  have hlic : lineIndexCheck vl.index (w.chars_per_line - 1) = true := by
    simp only [lineIndexCheck, Bool.and_eq_true, decide_eq_true_eq]
    exact ⟨hidx1, hidx0⟩
  rw [true_textui_putchar_window, if_pos hch, hvl]
  dsimp only
  simp only [hcellg]
  rw [hrefresh]
  simp only [hlic, eq_self_iff_true, not_true, if_false]

/-- `true_textui_putchar_window` at the reserved cursor column
`chars_per_line − 1`: the cell is first written and rendered on the current
line, and only then `textui_new_line` runs; its render calls follow the
cell's own render call in the log. -/
theorem true_putchar_last (R : Int) (w w2 : TextuiWindow)
    (vl : TextuiVlineChromatic) (ch : Char) (fr bk : Nat)
    (l2 : List RenderCall)
    (hch : w.chromatic = true)
    (hvl : w.vlines[usizeOfI32 w.vline_operating]? = some vl)
    (hop0 : 0 ≤ w.vline_operating)
    (hcheck1 : lineIdCheck w.vline_operating w.vline_sum = true)
    (hidx0 : 0 ≤ vl.index) (hidxeq : vl.index = w.chars_per_line - 1)
    (hcell : vl.index.toNat < vl.chars.length)
    (hnl : textui_new_line R
      { w with
        vlines := w.vlines.set (usizeOfI32 w.vline_operating)
          ⟨vl.chars.set (usizeOfI32 vl.index) ⟨some ch, fr, bk⟩,
            vl.index + 1⟩ } = ResW.ok w2 l2) :
    true_textui_putchar_window R w ch fr bk =
      ResW.ok w2
        (⟨if w.vline_operating - w.top_vline < 0
           then w.vline_operating - w.top_vline + R
           else w.vline_operating - w.top_vline, vl.index,
           ⟨some ch, fr, bk⟩⟩ :: l2) := by
  have hcellg : vl.chars[usizeOfI32 vl.index]? = some vl.chars[vl.index.toNat] := by
    rw [usizeOfI32_of_nonneg hidx0]
    exact List.getElem?_eq_getElem hcell
  have hg2 : (vl.chars.set (usizeOfI32 vl.index)
      ⟨some ch, fr, bk⟩)[usizeOfI32 vl.index]? = some ⟨some ch, fr, bk⟩ := by
    rw [usizeOfI32_of_nonneg hidx0]
    exact List.getElem?_set_eq_of_lt _ hcell
  have hvl2 : ({ w with
      vlines := w.vlines.set (usizeOfI32 w.vline_operating)
        ⟨vl.chars.set (usizeOfI32 vl.index) ⟨some ch, fr, bk⟩, vl.index + 1⟩ } :
      TextuiWindow).vlines[usizeOfI32 w.vline_operating]? =
      some ⟨vl.chars.set (usizeOfI32 vl.index) ⟨some ch, fr, bk⟩,
        vl.index + 1⟩ := by
    try dsimp only
    exact List.getElem?_set_eq_of_lt _ (lt_length_of_getElem?_some hvl)
  have hrefresh := refresh_characters_single R
    { w with
      vlines := w.vlines.set (usizeOfI32 w.vline_operating)
        ⟨vl.chars.set (usizeOfI32 vl.index) ⟨some ch, fr, bk⟩, vl.index + 1⟩ }
    ⟨vl.chars.set (usizeOfI32 vl.index) ⟨some ch, fr, bk⟩, vl.index + 1⟩
    w.vline_operating vl.index ⟨some ch, fr, bk⟩
    hcheck1 (by dsimp only; omega) hch hvl2 hg2
  have hlic : lineIndexCheck vl.index (w.chars_per_line - 1) = false := by
    simp only [lineIndexCheck, Bool.and_eq_false_iff, decide_eq_false_iff_not,
      not_lt, not_le]
    omega
  rw [true_textui_putchar_window, if_pos hch, hvl]
  dsimp only
  simp only [hcellg]
  rw [hrefresh]
  simp only [hlic, Bool.false_eq_true, not_false_iff, if_true]
  rw [hnl]
  rfl

/-- `textui_putchar_window` routes a printable character (none of `'\0'`,
`'\r'`, `'\n'`, `'\t'`, `'\x08'`) with an in-range stored column directly to
`true_textui_putchar_window`. -/
theorem putchar_printable_eq (R : Int) (w : TextuiWindow)
    (vl : TextuiVlineChromatic) (ch : Char) (fr bk : Nat)
    (hch : w.chromatic = true)
    (hvl : w.vlines[usizeOfI32 w.vline_operating]? = some vl)
    (hlic : lineIndexCheck vl.index w.chars_per_line = true)
    (hp0 : ch ≠ Char.ofNat 0) (hp1 : ch ≠ '\r') (hp2 : ch ≠ '\n')
    (hp3 : ch ≠ '\t') (hp4 : ch ≠ Char.ofNat 8) :
    textui_putchar_window R w ch fr bk true =
      true_textui_putchar_window R w ch fr bk := by
  rw [textui_putchar_window, if_neg hp0, if_neg hp1, if_neg (by simp [hch]),
    if_neg hp2, if_neg hp3, if_neg hp4, if_pos rfl, hvl]
  dsimp only
  rw [if_neg (fun hcon => hcon hlic)]

theorem putstr_nil (R : Int) (w : TextuiWindow) (fr bk : Nat) (en : Bool) :
    textui_putstr R w [] fr bk en = ResW.ok w [] := rfl

theorem putstr_cons_ok (R : Int) (w w1 w2 : TextuiWindow) (c : Char)
    (s : List Char) (fr bk : Nat) (en : Bool) (l1 l2 : List RenderCall)
    (h1 : textui_putchar_window R w c fr bk en = ResW.ok w1 l1)
    (h2 : textui_putstr R w1 s fr bk en = ResW.ok w2 l2) :
    textui_putstr R w (c :: s) fr bk en = ResW.ok w2 (l1 ++ l2) := by
  show (match textui_putchar_window R w c fr bk en with
    | .ok wa la =>
      match textui_putstr R wa s fr bk en with
      | .ok wb lb => ResW.ok wb (la ++ lb)
      | .err wb lb => ResW.err wb (la ++ lb)
      | .panic => ResW.panic
    | .err wa la => ResW.err wa la
    | .panic => ResW.panic) = ResW.ok w2 (l1 ++ l2)
  rw [h1]
  dsimp only
  rw [h2]

theorem putstr_snoc_ok (R : Int) (fr bk : Nat) (en : Bool) (c : Char) :
    ∀ (s : List Char) (w w1 w2 : TextuiWindow)
      (l1 l2 : List RenderCall),
      textui_putstr R w s fr bk en = ResW.ok w1 l1 →
      textui_putchar_window R w1 c fr bk en = ResW.ok w2 l2 →
      textui_putstr R w (s ++ [c]) fr bk en = ResW.ok w2 (l1 ++ l2) := by
  intro s
  induction s with
  | nil =>
    intro w w1 w2 l1 l2 h1 h2
    rw [show textui_putstr R w ([] : List Char) fr bk en = ResW.ok w []
      from rfl] at h1
    cases h1
    rw [List.nil_append]
    have := putstr_cons_ok R w w2 w2 c [] fr bk en l2 [] h2 (putstr_nil ..)
    rw [List.append_nil] at this
    exact this
  | cons head rest ih =>
    intro w w1 w2 l1 l2 h1 h2
    cases hph : textui_putchar_window R w head fr bk en with
    | ok wa la =>
      rw [show textui_putstr R w (head :: rest) fr bk en =
        (match textui_putchar_window R w head fr bk en with
         | .ok wx lx =>
           match textui_putstr R wx rest fr bk en with
           | .ok wy ly => ResW.ok wy (lx ++ ly)
           | .err wy ly => ResW.err wy (lx ++ ly)
           | .panic => ResW.panic
         | .err wx lx => ResW.err wx lx
         | .panic => ResW.panic) from rfl, hph] at h1
      dsimp only at h1
      cases hps : textui_putstr R wa rest fr bk en with
      | ok wb lb =>
        rw [hps] at h1
        injection h1 with hw hl
        subst hw
        subst hl
        have h3 := ih wa wb w2 lb l2 hps h2
        have h4 := putstr_cons_ok R w wa w2 head (rest ++ [c]) fr bk en
          la (lb ++ l2) hph h3
        rw [List.cons_append, h4, List.append_assoc]
      | err wb lb =>
        rw [hps] at h1
        cases h1
      | panic =>
        rw [hps] at h1
        cases h1
    | err wa la =>
      rw [show textui_putstr R w (head :: rest) fr bk en =
        (match textui_putchar_window R w head fr bk en with
         | .ok wx lx =>
           match textui_putstr R wx rest fr bk en with
           | .ok wy ly => ResW.ok wy (lx ++ ly)
           | .err wy ly => ResW.err wy (lx ++ ly)
           | .panic => ResW.panic
         | .err wx lx => ResW.err wx lx
         | .panic => ResW.panic) from rfl, hph] at h1
      dsimp only at h1
      cases h1
    | panic =>
      rw [show textui_putstr R w (head :: rest) fr bk en =
        (match textui_putchar_window R w head fr bk en with
         | .ok wx lx =>
           match textui_putstr R wx rest fr bk en with
           | .ok wy ly => ResW.ok wy (lx ++ ly)
           | .err wy ly => ResW.err wy (lx ++ ly)
           | .panic => ResW.panic
         | .err wx lx => ResW.err wx lx
         | .panic => ResW.panic) from rfl, hph] at h1
      dsimp only at h1
      cases h1

/-! ## Claim C2 (glyph bit selection) -/

/-- A glyph whose top row has only bit 7 set (leftmost pixel under the usual
font convention). -/
def glyphTop : Font :=
  ⟨128 :: List.replicate 15 0⟩

set_option maxRecDepth 8000 in
/-- C2 fails on the code: for the glyph row mask `0x80` (only bit 7 set), the
pixel at row 0, column `j = 1` is rendered in the foreground color although
bit `7 − j = 6` of the mask is clear — `Font::is_frcolor` tests bit
`8 − width`, not `7 − width` (and at `width = 0` the `u8` shift `1 << 8`
overflows).  The third conjunct evaluates the full pixel loop of
`textui_refresh_character` at that input: pixel index 1 receives the
foreground color `0xffffff`. -/
theorem c2_glyph_bit_evaluation :
    Font.is_frcolor glyphTop 0 1 = true ∧ (128 >>> (7 - 1)) % 2 = 0 ∧
    ((⟨some 'X', 16777215, 0⟩ : TextuiCharChromatic).textui_refresh_character
        glyphTop 640 0 0)[1]? = some (1, 16777215) := by
  decide

/-! ## Claim C4 (refresh bounds check) -/

/-- C4 is false as stated: a refresh request addressing column −1 (outside
`[0, chars_per_line)`) with `start + count ≤ chars_per_line` passes the bounds
check and panics on the out-of-range cell index instead of returning EINVAL
with the state unchanged. -/
theorem c4_counterexample :
    textui_refresh_characters 2 (TextuiWindow.new 2 2) 0 (-1) 1 = ResL.panic := by
  decide

/-- C4 (amended): a refresh request whose `vline_id` lies outside
`[0, vline_sum)` or with `start + count > chars_per_line` is rejected with
EINVAL before any mutation or rendering (the result carries no render call,
and `textui_refresh_characters` never writes the window).  This covers the
two particular cases `vline_id = vline_sum` and `start = chars_per_line`
with `count ≥ 1`; a negative start column with `start + count ≤
chars_per_line` is not caught (see the counterexample). -/
theorem c4_amended_refresh_bounds (R : Int) (w : TextuiWindow)
    (vlineId start count : Int)
    (h : ¬ (0 ≤ vlineId ∧ vlineId < w.vline_sum) ∨
      start + count > w.chars_per_line) :
    textui_refresh_characters R w vlineId start count = ResL.err [] := by
  have hc : (¬ lineIdCheck vlineId w.vline_sum ∨
      start + count > w.chars_per_line) := by
    rcases h with h | h
    · left
      intro hx
      simp only [lineIdCheck, Bool.and_eq_true, decide_eq_true_eq] at hx
      exact h ⟨hx.2, hx.1⟩
    · right
      exact h
  rw [textui_refresh_characters, if_pos hc]

/-- Witness for C4 (amended): `refresh(vline_id = vline_sum)` and
`refresh(start = chars_per_line, count = 1)` are both rejected with EINVAL. -/
theorem c4_amended_refresh_bounds_witness :
    textui_refresh_characters 2 (TextuiWindow.new 2 2) 2 0 1 = ResL.err [] ∧
    textui_refresh_characters 2 (TextuiWindow.new 2 2) 0 2 1 = ResL.err [] :=
  ⟨c4_amended_refresh_bounds 2 (TextuiWindow.new 2 2) 2 0 1 (by decide),
   c4_amended_refresh_bounds 2 (TextuiWindow.new 2 2) 0 2 1 (by decide)⟩

/-! ## Claim C3 (virtual-to-physical row translation) -/

/-- C3 is false as stated: in a window with `vline_sum = 4`,
`actual_line = 2` reached from a fresh window by four newlines
(`top_vline = 3`), refreshing virtual line 0 renders at physical row
`0 − 3 + 2 = −1`, not at `(0 − 3) mod 4 = 1` as the claimed
`mod vline_sum` formula requires. -/
theorem c3_counterexample :
    (textui_putstr 2 (TextuiWindow.new 4 1) (List.replicate 4 '\n')
        0 0 true).window?.map
      (fun w2 => (w2.top_vline, textui_refresh_characters 2 w2 0 0 1)) =
      some (3, ResL.ok [⟨-1, 0, blackChar⟩]) ∧
    ((0 : Int) - 3) % 4 = 1 ∧ (-1 : Int) ≠ 1 := by
  decide

/-- C3 (amended): the physical row used when rendering virtual line `v` is
`v − top_vline` when that difference is non-negative, and
`v − top_vline + actual_line` (the visible-row count, not `vline_sum`)
otherwise.  The `mod vline_sum` description is recovered exactly when the
visible-row count equals `vline_sum`. -/
theorem c3_amended_physical_row (R : Int) (w : TextuiWindow)
    (vlineId start count : Int) (l : List RenderCall) (rc : RenderCall)
    (h : textui_refresh_characters R w vlineId start count = ResL.ok l)
    (hm : rc ∈ l) :
    rc.row = (if vlineId - w.top_vline < 0 then vlineId - w.top_vline + R
              else vlineId - w.top_vline) ∧
    (R = w.vline_sum → 0 ≤ w.top_vline → w.top_vline < w.vline_sum →
      0 ≤ vlineId → vlineId < w.vline_sum →
      rc.row = (vlineId - w.top_vline) % w.vline_sum) := by
  rw [textui_refresh_characters] at h
  by_cases hc : (¬ lineIdCheck vlineId w.vline_sum ∨
      start + count > w.chars_per_line)
  · rw [if_pos hc] at h
    cases h
  · rw [if_neg hc] at h
    by_cases hch : w.chromatic = true
    · rw [if_pos hch] at h
      cases hg : w.vlines[usizeOfI32 vlineId]? with
      | none => rw [hg] at h; cases h
      | some vline =>
        rw [hg] at h
        have hrow := refreshLoop_row_of_mem vline _ count.toNat start l h rc hm
        constructor
        · exact hrow
        · intro hRN h1 h2 h3 h4
          rw [hrow, hRN]
          exact int_wrap_eq_emod (by omega) (by omega)
    · rw [if_neg hch] at h
      cases h
      cases hm

/-- Concrete window with `top_vline = 3` used to witness the amended C3. -/
def wTop3 : TextuiWindow :=
  { vline_sum := 4
    vlines_used := 2
    top_vline := 3
    vlines := List.replicate 4 (TextuiVlineChromatic.new 1)
    vline_operating := 3
    chars_per_line := 1
    chromatic := true }

/-- Witness for C3 (amended), at the concrete window of the counterexample
trace: refreshing virtual line 0 with `top_vline = 3`, `actual_line = 2`
renders at row `0 − 3 + 2 = −1`. -/
theorem c3_amended_physical_row_witness :
    (⟨-1, 0, blackChar⟩ : RenderCall).row =
      (if (0 : Int) - wTop3.top_vline < 0 then 0 - wTop3.top_vline + 2
       else 0 - wTop3.top_vline) ∧
    ((2 : Int) = wTop3.vline_sum → 0 ≤ wTop3.top_vline →
      wTop3.top_vline < wTop3.vline_sum → (0 : Int) ≤ 0 →
      (0 : Int) < wTop3.vline_sum →
      (⟨-1, 0, blackChar⟩ : RenderCall).row =
        ((0 : Int) - wTop3.top_vline) % wTop3.vline_sum) :=
  c3_amended_physical_row 2 wTop3 0 0 1 [⟨-1, 0, blackChar⟩]
    ⟨-1, 0, blackChar⟩ (by decide) (by decide)

/-! ## Claim C5 (error propagation in put_string) -/

/-- Degenerate window with `chars_per_line = 0`, on which the printable path
produces an EINVAL bounds failure. -/
def zeroWidthWindow : TextuiWindow :=
  TextuiWindow.new 1 0

/-- The window state left behind by the failing first character of the C5
counterexample (the column advanced to 1 before the bounds check fired). -/
def zeroWidthErrState : TextuiWindow :=
  { vline_sum := 1
    vlines_used := 1
    top_vline := 0
    vlines := [⟨[], 1⟩]
    vline_operating := 0
    chars_per_line := 0
    chromatic := true }

/-- C5 is false as stated: on a window whose printable path fails its bounds
check, `textui_putstr` of the two-character string `"ab"` returns the error
of the first character and produces exactly the same outcome as the
one-character string `"a"` — the whole string call stops at the first error
and the remaining character is never processed. -/
theorem c5_counterexample :
    (textui_putstr 1 zeroWidthWindow ['a', 'b'] 0 0 true).isErr = true ∧
    textui_putstr 1 zeroWidthWindow ['a', 'b'] 0 0 true =
      textui_putstr 1 zeroWidthWindow ['a'] 0 0 true := by
  decide

/-- C5 (amended): when a character operation inside `textui_putstr` fails its
bounds check, the `?` operator propagates the error out of the whole call:
the remaining characters of the string are not processed (matching the
spec's §7: the reference behavior aborts the whole string on first error). -/
theorem c5_amended_putstr_aborts (R : Int) (w w1 : TextuiWindow) (c : Char)
    (rest : List Char) (frcolor bkcolor : Nat) (en : Bool)
    (l : List RenderCall)
    (h : textui_putchar_window R w c frcolor bkcolor en = ResW.err w1 l) :
    textui_putstr R w (c :: rest) frcolor bkcolor en = ResW.err w1 l := by
  show (match textui_putchar_window R w c frcolor bkcolor en with
    | .ok w2 l2 =>
      match textui_putstr R w2 rest frcolor bkcolor en with
      | .ok w3 l3 => ResW.ok w3 (l2 ++ l3)
      | .err w3 l3 => ResW.err w3 (l2 ++ l3)
      | .panic => ResW.panic
    | .err w2 l2 => ResW.err w2 l2
    | .panic => ResW.panic) = ResW.err w1 l
  rw [h]

/-- Witness for C5 (amended): on the degenerate zero-width window, the first
character fails with EINVAL and `putstr "ab"` returns that error with the
second character untouched. -/
theorem c5_amended_putstr_aborts_witness :
    textui_putstr 1 zeroWidthWindow ['a', 'b'] 0 0 true =
      ResW.err zeroWidthErrState [] :=
  c5_amended_putstr_aborts 1 zeroWidthWindow zeroWidthErrState 'a' ['b']
    0 0 true [] (by decide)

/-! ## Claim C6 (filling one line, newline at the C-th character) -/

/-- State of a window that is filling its first line: structural facts plus
cursor on line 0, nothing scrolled, and the first line's column at `k`. -/
def FillState (N C k : Int) (w : TextuiWindow) : Prop :=
  w.vline_sum = N ∧ w.chars_per_line = C ∧ w.chromatic = true ∧
  w.vlines.length = N.toNat ∧
  (∀ vl ∈ w.vlines, vl.chars.length = C.toNat) ∧
  w.vline_operating = 0 ∧ w.top_vline = 0 ∧ w.vlines_used = 1 ∧
  (∃ vl, w.vlines[(0 : Nat)]? = some vl ∧ vl.index = k)

theorem putchar_fill_step (N C R k : Int) (w : TextuiWindow) (ch : Char)
    (fr bk : Nat)
    (hfs : FillState N C k w) (hk0 : 0 ≤ k) (hk1 : k < C - 1)
    (hp0 : ch ≠ Char.ofNat 0) (hp1 : ch ≠ '\r') (hp2 : ch ≠ '\n')
    (hp3 : ch ≠ '\t') (hp4 : ch ≠ Char.ofNat 8) :
    ∃ w2 l, textui_putchar_window R w ch fr bk true = ResW.ok w2 l ∧
      FillState N C (k + 1) w2 := by
  obtain ⟨hsum, hcpl, hch, hlen, hlines, hop, htop, hused, vl, hvl0, hidx⟩ := hfs
  have h00 : usizeOfI32 (0 : Int) = 0 := by decide
  have hvl : w.vlines[usizeOfI32 w.vline_operating]? = some vl := by
    rw [hop, h00]
    exact hvl0
  have hN1 : 0 < N := by
    have := lt_length_of_getElem?_some hvl0
    omega
  have hlic : lineIndexCheck vl.index w.chars_per_line = true := by
    simp only [lineIndexCheck, Bool.and_eq_true, decide_eq_true_eq]
    rw [hidx, hcpl]
    omega
  have hcheck1 : lineIdCheck w.vline_operating w.vline_sum = true := by
    simp only [lineIdCheck, Bool.and_eq_true, decide_eq_true_eq]
    rw [hop, hsum]
    omega
  have hcell : vl.index.toNat < vl.chars.length := by
    have := hlines vl (mem_of_getElem?_some hvl0)
    omega
  have hmid := true_putchar_mid R w vl ch fr bk hch hvl (by rw [hop])
    hcheck1 (by omega) (by rw [hidx, hcpl] at *; omega) hcell
  refine ⟨_, _, (putchar_printable_eq R w vl ch fr bk hch hvl hlic
    hp0 hp1 hp2 hp3 hp4).trans hmid, ?_⟩
  refine ⟨hsum, hcpl, hch, ?_, ?_, hop, htop, hused, ?_⟩
  · dsimp only
    rw [List.length_set]
    exact hlen
  · dsimp only
    intro vl2 hm
    rcases List.mem_or_eq_of_mem_set hm with h | h
    · exact hlines _ h
    · rw [h]
      dsimp only
      rw [List.length_set]
      exact hlines vl (mem_of_getElem?_some hvl0)
  · refine ⟨⟨vl.chars.set (usizeOfI32 vl.index) ⟨some ch, fr, bk⟩,
      vl.index + 1⟩, ?_, ?_⟩
    · dsimp only
      rw [hop, h00]
      exact List.getElem?_set_eq_of_lt _ (lt_length_of_getElem?_some hvl0)
    · dsimp only
      omega

theorem putstr_fill_iter (N C R : Int) (ch : Char) (fr bk : Nat)
    (hp0 : ch ≠ Char.ofNat 0) (hp1 : ch ≠ '\r') (hp2 : ch ≠ '\n')
    (hp3 : ch ≠ '\t') (hp4 : ch ≠ Char.ofNat 8) :
    ∀ (n : Nat) (k : Int) (w : TextuiWindow), FillState N C k w → 0 ≤ k →
      k + n ≤ C - 1 →
      ∃ w2 l, textui_putstr R w (List.replicate n ch) fr bk true =
        ResW.ok w2 l ∧ FillState N C (k + n) w2 := by
  intro n
  induction n with
  | zero =>
    intro k w hfs hk0 hkn
    exact ⟨w, [], putstr_nil .., by simpa using hfs⟩
  | succ n ih =>
    intro k w hfs hk0 hkn
    obtain ⟨w1, l1, hput, hfs1⟩ := putchar_fill_step N C R k w ch fr bk hfs
      hk0 (by push_cast at hkn; omega) hp0 hp1 hp2 hp3 hp4
    obtain ⟨w2, l2, hps, hfs2⟩ := ih (k + 1) w1 hfs1 (by omega)
      (by push_cast at hkn ⊢; omega)
    refine ⟨w2, l1 ++ l2, ?_, ?_⟩
    · rw [List.replicate_succ]
      exact putstr_cons_ok R w w1 w2 ch _ fr bk true l1 l2 hput hps
    · have he : k + ((n : Int) + 1) = k + 1 + n := by ring
      push_cast
      rw [he]
      exact hfs2

/-- C6: on a fresh Window with `chars_per_line = C`, writing `C − 1`
printable characters fills the first line and leaves its column at `C − 1`
with no newline transition (`vline_operating` and `vlines_used` unchanged);
writing the C-th printable character triggers the newline transition: the
cursor moves to line 1, whose column is reset to 0. -/
theorem c6_line_fill_newline (N C R : Int) (ch : Char) (fr bk : Nat)
    (hN : 2 ≤ N) (hC : 1 ≤ C) (hR1 : 1 ≤ R) (hRN : R ≤ N)
    (hp0 : ch ≠ Char.ofNat 0) (hp1 : ch ≠ '\r') (hp2 : ch ≠ '\n')
    (hp3 : ch ≠ '\t') (hp4 : ch ≠ Char.ofNat 8) :
    (∃ w1 l1,
      textui_putstr R (TextuiWindow.new N C) (List.replicate (C - 1).toNat ch)
        fr bk true = ResW.ok w1 l1 ∧
      w1.vline_operating = 0 ∧ w1.vlines_used = 1 ∧
      (w1.vlines[(0 : Nat)]?).map TextuiVlineChromatic.index = some (C - 1)) ∧
    (∃ w2 l2,
      textui_putstr R (TextuiWindow.new N C) (List.replicate C.toNat ch)
        fr bk true = ResW.ok w2 l2 ∧
      w2.vline_operating = 1 ∧
      (w2.vlines[(1 : Nat)]?).map TextuiVlineChromatic.index = some 0) := by
  have hfs0 : FillState N C 0 (TextuiWindow.new N C) := by
    refine ⟨rfl, rfl, rfl, ?_, ?_, rfl, rfl, rfl, ?_⟩
    · exact List.length_replicate ..
    · intro vl hm
      rw [(List.mem_replicate.mp hm).2]
      exact List.length_replicate ..
    · refine ⟨TextuiVlineChromatic.new C.toNat, ?_, rfl⟩
      show (List.replicate N.toNat
        (TextuiVlineChromatic.new C.toNat))[(0 : Nat)]? = _
      rw [List.getElem?_replicate, if_pos (by omega)]
  obtain ⟨w1, l1, hps1, hfs1⟩ := putstr_fill_iter N C R ch fr bk
    hp0 hp1 hp2 hp3 hp4 (C - 1).toNat 0 (TextuiWindow.new N C) hfs0 le_rfl
    (by omega)
  have hfs1' : FillState N C (C - 1) w1 := by
    have he : (0 : Int) + ((C - 1).toNat : Int) = C - 1 := by omega
    rw [he] at hfs1
    exact hfs1
  obtain ⟨hsum, hcpl, hch, hlen, hlines, hop, htop, hused, vl, hvl0, hidx⟩ :=
    hfs1'
  have h00 : usizeOfI32 (0 : Int) = 0 := by decide
  have hvl : w1.vlines[usizeOfI32 w1.vline_operating]? = some vl := by
    rw [hop, h00]
    exact hvl0
  have hcheck1 : lineIdCheck w1.vline_operating w1.vline_sum = true := by
    simp only [lineIdCheck, Bool.and_eq_true, decide_eq_true_eq]
    rw [hop, hsum]
    omega
  have hcell : vl.index.toNat < vl.chars.length := by
    have := hlines vl (mem_of_getElem?_some hvl0)
    omega
  have hlic : lineIndexCheck vl.index w1.chars_per_line = true := by
    simp only [lineIndexCheck, Bool.and_eq_true, decide_eq_true_eq]
    rw [hidx, hcpl]
    omega
  -- the updated-window argument of the final newline
  obtain ⟨w2, l2, hnl, hsum2, hcpl2, hch2, hlen2, hlines2, hop2, hvlop2,
      hother2, hscroll2, hnoscroll2⟩ :=
    textui_new_line_spec R N C
      { w1 with
        vlines := w1.vlines.set (usizeOfI32 w1.vline_operating)
          ⟨vl.chars.set (usizeOfI32 vl.index) ⟨some ch, fr, bk⟩,
            vl.index + 1⟩ }
      hsum hcpl hch
      (by dsimp only; rw [List.length_set]; exact hlen)
      (by
        try dsimp only
        intro vl2 hm
        rcases List.mem_or_eq_of_mem_set hm with h | h
        · exact hlines _ h
        · rw [h]
          dsimp only
          rw [List.length_set]
          exact hlines vl (mem_of_getElem?_some hvl0))
      (by dsimp only; omega) (by dsimp only; rw [hop]; omega)
      (by dsimp only; omega) (by dsimp only; rw [htop]; omega)
      (by omega) hRN
  have hlast := true_putchar_last R w1 w2 vl ch fr bk l2 hch hvl
    (by rw [hop]) hcheck1 (by omega) (by rw [hidx, hcpl]) hcell hnl
  have hfinal : textui_putchar_window R w1 ch fr bk true =
      ResW.ok w2
        (⟨if w1.vline_operating - w1.top_vline < 0
           then w1.vline_operating - w1.top_vline + R
           else w1.vline_operating - w1.top_vline, vl.index,
           ⟨some ch, fr, bk⟩⟩ :: l2) :=
    (putchar_printable_eq R w1 vl ch fr bk hch hvl hlic
      hp0 hp1 hp2 hp3 hp4).trans hlast
  constructor
  · refine ⟨w1, l1, hps1, hop, hused, ?_⟩
    rw [hvl0]
    simp only [Option.map_some']
    rw [hidx]
  · have hCsucc : C.toNat = (C - 1).toNat + 1 := by omega
    have hput := putstr_snoc_ok R fr bk true ch (List.replicate (C - 1).toNat ch)
      (TextuiWindow.new N C) w1 w2 l1 _ hps1 hfinal
    refine ⟨w2, l1 ++ (⟨if w1.vline_operating - w1.top_vline < 0
      then w1.vline_operating - w1.top_vline + R
      else w1.vline_operating - w1.top_vline, vl.index,
      ⟨some ch, fr, bk⟩⟩ :: l2), ?_, ?_, ?_⟩
    · rw [hCsucc, List.replicate_succ']
      exact hput
    · rw [hop2]
      dsimp only
      rw [hop]
      rw [if_pos (show (0 : Int) + 1 < N by omega)]
      omega
    · have hop2v : w2.vline_operating = 1 := by
        rw [hop2]
        try dsimp only
        rw [hop]
        rw [if_pos (show (0 : Int) + 1 < N by omega)]
        omega
      have h11 : usizeOfI32 (1 : Int) = 1 := by decide
      rw [hop2v, h11] at hvlop2
      rw [hvlop2]
      simp only [Option.map_some']

/-- Witness for C6 at `vline_sum = 4`, `chars_per_line = 4`,
`actual_line = 2`, character `'a'`. -/
theorem c6_line_fill_newline_witness :
    (∃ w1 l1,
      textui_putstr 2 (TextuiWindow.new 4 4)
        (List.replicate ((4 : Int) - 1).toNat 'a') 1 0 true =
        ResW.ok w1 l1 ∧
      w1.vline_operating = 0 ∧ w1.vlines_used = 1 ∧
      (w1.vlines[(0 : Nat)]?).map TextuiVlineChromatic.index =
        some ((4 : Int) - 1)) ∧
    (∃ w2 l2,
      textui_putstr 2 (TextuiWindow.new 4 4)
        (List.replicate (4 : Int).toNat 'a') 1 0 true = ResW.ok w2 l2 ∧
      w2.vline_operating = 1 ∧
      (w2.vlines[(1 : Nat)]?).map TextuiVlineChromatic.index = some 0) :=
  c6_line_fill_newline 4 4 2 'a' 1 0 (by decide) (by decide) (by decide)
    (by decide) (by decide) (by decide) (by decide) (by decide) (by decide)

/-! ## Claim C10 (character stored and rendered before the newline) -/

/-- C10: writing a printable character with the cursor at the reserved
column `chars_per_line − 1` first stores the character into that cell of the
current line and renders it there (its render call opens the log), and only
afterwards performs the newline transition: the character stays in the old
line's last cell, the operating pointer advances with wrap, and the new
operating line is entirely blank — the character is not moved to the next
line. -/
theorem c10_char_stored_before_newline (N C R : Int) (w : TextuiWindow)
    (vl : TextuiVlineChromatic) (ch : Char) (fr bk : Nat)
    (hsum : w.vline_sum = N) (hcpl : w.chars_per_line = C)
    (hch : w.chromatic = true) (hlen : w.vlines.length = N.toNat)
    (hlines : ∀ vl2 ∈ w.vlines, vl2.chars.length = C.toNat)
    (hop0 : 0 ≤ w.vline_operating) (hop1 : w.vline_operating < N)
    (htop0 : 0 ≤ w.top_vline) (htop1 : w.top_vline < N)
    (hN : 2 ≤ N) (hC : 1 ≤ C) (hR0 : 0 ≤ R) (hRN : R ≤ N)
    (hvl : w.vlines[usizeOfI32 w.vline_operating]? = some vl)
    (hidx : vl.index = C - 1)
    (hp0 : ch ≠ Char.ofNat 0) (hp1 : ch ≠ '\r') (hp2 : ch ≠ '\n')
    (hp3 : ch ≠ '\t') (hp4 : ch ≠ Char.ofNat 8) :
    ∃ w2 l2,
      textui_putchar_window R w ch fr bk true =
        ResW.ok w2
          (⟨if w.vline_operating - w.top_vline < 0
             then w.vline_operating - w.top_vline + R
             else w.vline_operating - w.top_vline, C - 1,
             ⟨some ch, fr, bk⟩⟩ :: l2) ∧
      ((w2.vlines[usizeOfI32 w.vline_operating]?).map
        (fun v => v.chars[(C - 1).toNat]?)) = some (some ⟨some ch, fr, bk⟩) ∧
      w2.vline_operating =
        (if w.vline_operating + 1 < N then w.vline_operating + 1 else 0) ∧
      w2.vlines[usizeOfI32 w2.vline_operating]? =
        some ⟨List.replicate C.toNat blackChar, 0⟩ := by
  have hcell : vl.index.toNat < vl.chars.length := by
    have := hlines vl (mem_of_getElem?_some hvl)
    omega
  have hcheck1 : lineIdCheck w.vline_operating w.vline_sum = true := by
    simp only [lineIdCheck, Bool.and_eq_true, decide_eq_true_eq]
    rw [hsum]
    exact ⟨hop1, hop0⟩
  have hlic : lineIndexCheck vl.index w.chars_per_line = true := by
    simp only [lineIndexCheck, Bool.and_eq_true, decide_eq_true_eq]
    rw [hidx, hcpl]
    omega
  obtain ⟨w2, l2, hnl, hsum2, hcpl2, hch2, hlen2, hlines2, hop2, hvlop2,
      hother2, hscroll2, hnoscroll2⟩ :=
    textui_new_line_spec R N C
      { w with
        vlines := w.vlines.set (usizeOfI32 w.vline_operating)
          ⟨vl.chars.set (usizeOfI32 vl.index) ⟨some ch, fr, bk⟩,
            vl.index + 1⟩ }
      hsum hcpl hch
      (by dsimp only; rw [List.length_set]; exact hlen)
      (by
        try dsimp only
        intro vl2 hm
        rcases List.mem_or_eq_of_mem_set hm with h | h
        · exact hlines _ h
        · rw [h]
          dsimp only
          rw [List.length_set]
          exact hlines vl (mem_of_getElem?_some hvl))
      hop0 hop1 htop0 htop1 hR0 hRN
  have hfinal : textui_putchar_window R w ch fr bk true =
      ResW.ok w2
        (⟨if w.vline_operating - w.top_vline < 0
           then w.vline_operating - w.top_vline + R
           else w.vline_operating - w.top_vline, vl.index,
           ⟨some ch, fr, bk⟩⟩ :: l2) :=
    (putchar_printable_eq R w vl ch fr bk hch hvl hlic
      hp0 hp1 hp2 hp3 hp4).trans
      (true_putchar_last R w w2 vl ch fr bk l2 hch hvl hop0 hcheck1
        (by omega) (by rw [hidx, hcpl]) hcell hnl)
  rw [hidx] at hfinal
  have hop2' : w2.vline_operating =
      (if w.vline_operating + 1 < N then w.vline_operating + 1 else 0) := by
    rw [hop2]
  have hne : usizeOfI32 w.vline_operating ≠ usizeOfI32 w2.vline_operating := by
    rw [hop2', usizeOfI32_of_nonneg hop0]
    by_cases hx : w.vline_operating + 1 < N
    · rw [if_pos hx, usizeOfI32_of_nonneg (by omega)]
      omega
    · rw [if_neg hx, usizeOfI32_of_nonneg le_rfl]
      omega
  have hold := hother2 (usizeOfI32 w.vline_operating) hne
  refine ⟨w2, l2, hfinal, ?_, hop2', hvlop2⟩
  rw [hold]
  dsimp only
  rw [List.getElem?_set_eq_of_lt _ (lt_length_of_getElem?_some hvl)]
  simp only [Option.map_some']
  rw [show usizeOfI32 vl.index = (C - 1).toNat from by
    rw [usizeOfI32_of_nonneg (by omega), hidx]]
  rw [List.getElem?_set_eq_of_lt _ (by rw [← hidx]; omega)]

/-- Concrete window for the C10 witness: `vline_sum = 2`,
`chars_per_line = 2`, first line holds `'x'` with its column at 1. -/
def wColFull : TextuiWindow :=
  { vline_sum := 2
    vlines_used := 1
    top_vline := 0
    vlines := [⟨[⟨some 'x', 1, 0⟩, blackChar], 1⟩, TextuiVlineChromatic.new 2]
    vline_operating := 0
    chars_per_line := 2
    chromatic := true }

/-- Witness for C10 on `wColFull` with character `'y'`. -/
theorem c10_char_stored_before_newline_witness :
    ∃ w2 l2,
      textui_putchar_window 2 wColFull 'y' 1 0 true =
        ResW.ok w2
          (⟨if wColFull.vline_operating - wColFull.top_vline < 0
             then wColFull.vline_operating - wColFull.top_vline + 2
             else wColFull.vline_operating - wColFull.top_vline, (2 : Int) - 1,
             ⟨some 'y', 1, 0⟩⟩ :: l2) ∧
      ((w2.vlines[usizeOfI32 wColFull.vline_operating]?).map
        (fun v => v.chars[((2 : Int) - 1).toNat]?)) =
        some (some ⟨some 'y', 1, 0⟩) ∧
      w2.vline_operating =
        (if wColFull.vline_operating + 1 < 2 then wColFull.vline_operating + 1
         else 0) ∧
      w2.vlines[usizeOfI32 w2.vline_operating]? =
        some ⟨List.replicate (2 : Int).toNat blackChar, 0⟩ :=
  c10_char_stored_before_newline 2 2 2 wColFull
    ⟨[⟨some 'x', 1, 0⟩, blackChar], 1⟩ 'y' 1 0
    rfl rfl rfl (by decide) (by decide) (by decide) (by decide) (by decide)
    (by decide) (by decide) (by decide) (by decide) (by decide) (by decide)
    (by decide) (by decide) (by decide) (by decide) (by decide) (by decide)

/-! ## Claims C8 and C1 (newline counting and scrolling) -/

/-- State of a window that has only received newlines and has not yet
scrolled: cursor on line `k`, `top_vline` still 0, `1 + k` lines in use. -/
def NlState (N C k : Int) (w : TextuiWindow) : Prop :=
  w.vline_sum = N ∧ w.chars_per_line = C ∧ w.chromatic = true ∧
  w.vlines.length = N.toNat ∧
  (∀ vl ∈ w.vlines, vl.chars.length = C.toNat) ∧
  w.vline_operating = k ∧ w.top_vline = 0 ∧ w.vlines_used = 1 + k

theorem newline_phase1_step (N C R k : Int) (w : TextuiWindow) (fr bk : Nat)
    (hns : NlState N C k w) (hk0 : 0 ≤ k) (hk1 : k + 1 ≤ R - 1)
    (hRN : R ≤ N) :
    ∃ w2 l, textui_putchar_window R w '\n' fr bk true = ResW.ok w2 l ∧
      NlState N C (k + 1) w2 := by
  obtain ⟨hsum, hcpl, hch, hlen, hlines, hop, htop, hused⟩ := hns
  obtain ⟨w2, l, hnl, hsum2, hcpl2, hch2, hlen2, hlines2, hop2, hvlop2,
      hother2, hscroll2, hnoscroll2⟩ :=
    textui_new_line_spec R N C w hsum hcpl hch hlen hlines (by omega)
      (by omega) (by omega) (by omega) (by omega) hRN
  obtain ⟨hused2, htop2⟩ := hnoscroll2 (by omega)
  refine ⟨w2, l, (putchar_newline_eq R w fr bk hch).trans hnl,
    hsum2, hcpl2, hch2, hlen2, ?_, ?_, ?_, ?_⟩
  · intro vl hm
    rcases hlines2 vl hm with h | h
    · exact hlines _ h
    · rw [h]
      exact List.length_replicate ..
  · rw [hop2, hop]
    rw [if_pos (show k + 1 < N by omega)]
  · rw [htop2, htop]
  · rw [hused2, hused]
    ring

theorem newline_phase1 (N C R : Int) (fr bk : Nat) (hRN : R ≤ N) :
    ∀ (n : Nat) (k : Int) (w : TextuiWindow), NlState N C k w → 0 ≤ k →
      k + n ≤ R - 1 →
      ∃ w2 l, textui_putstr R w (List.replicate n '\n') fr bk true =
        ResW.ok w2 l ∧ NlState N C (k + n) w2 := by
  intro n
  induction n with
  | zero =>
    intro k w hns hk0 hkn
    exact ⟨w, [], putstr_nil .., by simpa using hns⟩
  | succ n ih =>
    intro k w hns hk0 hkn
    obtain ⟨w1, l1, hput, hns1⟩ := newline_phase1_step N C R k w fr bk hns
      hk0 (by push_cast at hkn; omega) hRN
    obtain ⟨w2, l2, hps, hns2⟩ := ih (k + 1) w1 hns1 (by omega)
      (by push_cast at hkn ⊢; omega)
    refine ⟨w2, l1 ++ l2, ?_, ?_⟩
    · rw [List.replicate_succ]
      exact putstr_cons_ok R w w1 w2 '\n' _ fr bk true l1 l2 hput hps
    · have he : k + ((n : Int) + 1) = k + 1 + n := by ring
      push_cast
      rw [he]
      exact hns2

/-- One `'\n'` on a window whose `vlines_used` already equals the visible
row count `R`: the window scrolls, `top_vline` advances by one modulo
`vline_sum`, and `vlines_used` stays at `R`. -/
theorem newline_scroll_step (N C R : Int) (w : TextuiWindow) (fr bk : Nat)
    (hsum : w.vline_sum = N) (hcpl : w.chars_per_line = C)
    (hch : w.chromatic = true) (hlen : w.vlines.length = N.toNat)
    (hlines : ∀ vl ∈ w.vlines, vl.chars.length = C.toNat)
    (hop0 : 0 ≤ w.vline_operating) (hop1 : w.vline_operating < N)
    (htop0 : 0 ≤ w.top_vline) (htop1 : w.top_vline < N)
    (hused : w.vlines_used = R) (hR0 : 0 ≤ R) (hRN : R ≤ N) :
    ∃ w2 l, textui_putchar_window R w '\n' fr bk true = ResW.ok w2 l ∧
      w2.vline_sum = N ∧ w2.chars_per_line = C ∧ w2.chromatic = true ∧
      w2.vlines.length = N.toNat ∧
      (∀ vl ∈ w2.vlines, vl.chars.length = C.toNat) ∧
      0 ≤ w2.vline_operating ∧ w2.vline_operating < N ∧
      w2.vlines_used = R ∧
      w2.top_vline = (w.top_vline + 1) % N := by
  obtain ⟨w2, l, hnl, hsum2, hcpl2, hch2, hlen2, hlines2, hop2, hvlop2,
      hother2, hscroll2, hnoscroll2⟩ :=
    textui_new_line_spec R N C w hsum hcpl hch hlen hlines hop0 hop1
      htop0 htop1 hR0 hRN
  obtain ⟨hused2, htop2⟩ := hscroll2 hused
  refine ⟨w2, l, (putchar_newline_eq R w fr bk hch).trans hnl,
    hsum2, hcpl2, hch2, hlen2, ?_, ?_, ?_, hused2, ?_⟩
  · intro vl hm
    rcases hlines2 vl hm with h | h
    · exact hlines _ h
    · rw [h]
      exact List.length_replicate ..
  · rw [hop2]
    split <;> omega
  · rw [hop2]
    split <;> omega
  · rw [htop2]
    exact wrap_eq_emod htop0 htop1

theorem nlstate_fresh (N C : Int) (hN : 1 ≤ N) :
    NlState N C 0 (TextuiWindow.new N C) := by
  refine ⟨rfl, rfl, rfl, List.length_replicate .., ?_, rfl, rfl, ?_⟩
  · intro vl hm
    rw [(List.mem_replicate.mp hm).2]
    exact List.length_replicate ..
  · show (1 : Int) = 1 + 0
    ring

/-- C8: a fresh Window has `vlines_used = 1` (the empty operating line is
counted as in view); consequently after any `k ≤ R − 1` newlines the window
has still not scrolled (`top_vline = 0`, `vlines_used = 1 + k`), and the
R-th newline performs the first scroll (`top_vline = 1 mod N`,
`vlines_used = R`) — the first scroll comes after `R − 1` newline
transitions, not after `R` of them. -/
theorem c8_initial_used_and_first_scroll (N C R : Int) (fr bk : Nat)
    (hN : 1 ≤ N) (hC : 0 ≤ C) (hR1 : 1 ≤ R) (hRN : R ≤ N) :
    (TextuiWindow.new N C).vlines_used = 1 ∧
    (∀ k : Nat, (k : Int) ≤ R - 1 →
      ∃ w1 l1, textui_putstr R (TextuiWindow.new N C)
          (List.replicate k '\n') fr bk true = ResW.ok w1 l1 ∧
        w1.top_vline = 0 ∧ w1.vlines_used = 1 + k) ∧
    (∃ w2 l2, textui_putstr R (TextuiWindow.new N C)
        (List.replicate R.toNat '\n') fr bk true = ResW.ok w2 l2 ∧
      w2.top_vline = 1 % N ∧ w2.vlines_used = R) := by
  refine ⟨rfl, ?_, ?_⟩
  · intro k hk
    obtain ⟨w1, l1, hps, hns⟩ := newline_phase1 N C R fr bk hRN k 0
      (TextuiWindow.new N C) (nlstate_fresh N C hN) le_rfl (by omega)
    obtain ⟨_, _, _, _, _, _, htop1, hused1⟩ := hns
    exact ⟨w1, l1, hps, htop1, by rw [hused1]; ring⟩
  · obtain ⟨w1, l1, hps, hns⟩ := newline_phase1 N C R fr bk hRN
      (R - 1).toNat 0 (TextuiWindow.new N C) (nlstate_fresh N C hN) le_rfl
      (by omega)
    obtain ⟨hsum1, hcpl1, hch1, hlen1, hlines1, hop1, htop1, hused1⟩ := hns
    obtain ⟨w2, l2, hput, hsum2, hcpl2, hch2, hlen2, hlines2, hop20, hop21,
        hused2, htop2⟩ :=
      newline_scroll_step N C R w1 fr bk hsum1 hcpl1 hch1 hlen1 hlines1
        (by omega) (by omega) (by omega) (by omega) (by omega) (by omega) hRN
    refine ⟨w2, l1 ++ l2, ?_, ?_, hused2⟩
    · rw [show R.toNat = (R - 1).toNat + 1 from by omega, List.replicate_succ']
      exact putstr_snoc_ok R fr bk true '\n' _ (TextuiWindow.new N C)
        w1 w2 l1 l2 hps hput
    · rw [htop2, htop1]
      norm_num

/-- Witness for C8 at `vline_sum = 2`, `chars_per_line = 1`,
`actual_line = 2`. -/
theorem c8_initial_used_and_first_scroll_witness :
    (TextuiWindow.new 2 1).vlines_used = 1 ∧
    (∀ k : Nat, (k : Int) ≤ 2 - 1 →
      ∃ w1 l1, textui_putstr 2 (TextuiWindow.new 2 1)
          (List.replicate k '\n') 0 0 true = ResW.ok w1 l1 ∧
        w1.top_vline = 0 ∧ w1.vlines_used = 1 + k) ∧
    (∃ w2 l2, textui_putstr 2 (TextuiWindow.new 2 1)
        (List.replicate (2 : Int).toNat '\n') 0 0 true = ResW.ok w2 l2 ∧
      w2.top_vline = 1 % 2 ∧ w2.vlines_used = 2) :=
  c8_initial_used_and_first_scroll 2 1 2 0 0 (by decide) (by decide)
    (by decide) (by decide)

/-! ## Claim C1 (scroll after R+1 newlines) -/

/-- C1 (amended): for `1 ≤ R ≤ N`, writing `R + 1` newline characters to a
fresh Window leaves `top_vline` advanced by exactly 2 modulo `vline_sum`
(`top_vline = 2 mod N`) and `vlines_used = R`: since a fresh window counts
its empty operating line (`vlines_used = 1`), both the R-th and the
(R+1)-th newline scroll. -/
theorem c1_amended_scroll_after_newlines (N C R : Int) (fr bk : Nat)
    (hN : 1 ≤ N) (hC : 0 ≤ C) (hR1 : 1 ≤ R) (hRN : R ≤ N) :
    ∃ w3 l3, textui_putstr R (TextuiWindow.new N C)
        (List.replicate (R + 1).toNat '\n') fr bk true = ResW.ok w3 l3 ∧
      w3.top_vline = 2 % N ∧ w3.vlines_used = R := by
  obtain ⟨w1, l1, hps, hns⟩ := newline_phase1 N C R fr bk hRN
    (R - 1).toNat 0 (TextuiWindow.new N C) (nlstate_fresh N C hN) le_rfl
    (by omega)
  obtain ⟨hsum1, hcpl1, hch1, hlen1, hlines1, hop1, htop1, hused1⟩ := hns
  obtain ⟨w2, l2, hput, hsum2, hcpl2, hch2, hlen2, hlines2, hop20, hop21,
      hused2, htop2⟩ :=
    newline_scroll_step N C R w1 fr bk hsum1 hcpl1 hch1 hlen1 hlines1
      (by omega) (by omega) (by omega) (by omega) (by omega) (by omega) hRN
  have htop2v : w2.top_vline = 1 % N := by
    rw [htop2, htop1]
    norm_num
  obtain ⟨w3, l3, hput3, hsum3, hcpl3, hch3, hlen3, hlines3, hop30, hop31,
      hused3, htop3⟩ :=
    newline_scroll_step N C R w2 fr bk hsum2 hcpl2 hch2 hlen2 hlines2
      hop20 hop21 (by rw [htop2v]; exact Int.emod_nonneg 1 (by omega))
      (by rw [htop2v]; exact Int.emod_lt_of_pos 1 (by omega))
      hused2 (by omega) hRN
  have hfirst : textui_putstr R (TextuiWindow.new N C)
      (List.replicate R.toNat '\n') fr bk true = ResW.ok w2 (l1 ++ l2) := by
    rw [show R.toNat = (R - 1).toNat + 1 from by omega, List.replicate_succ']
    exact putstr_snoc_ok R fr bk true '\n' _ _ w1 w2 l1 l2 hps hput
  refine ⟨w3, (l1 ++ l2) ++ l3, ?_, ?_, hused3⟩
  · rw [show (R + 1).toNat = R.toNat + 1 from by omega, List.replicate_succ']
    exact putstr_snoc_ok R fr bk true '\n' _ _ w2 w3 (l1 ++ l2) l3 hfirst hput3
  · rw [htop3, htop2v, Int.emod_add_emod]
    norm_num

/-- Witness for the amended C1 at `vline_sum = 4`, `chars_per_line = 1`,
`actual_line = 2` (the configuration of the counterexample trace). -/
theorem c1_amended_scroll_after_newlines_witness :
    ∃ w3 l3, textui_putstr 2 (TextuiWindow.new 4 1)
        (List.replicate ((2 : Int) + 1).toNat '\n') 0 0 true =
        ResW.ok w3 l3 ∧
      w3.top_vline = 2 % 4 ∧ w3.vlines_used = 2 :=
  c1_amended_scroll_after_newlines 4 1 2 0 0 (by decide) (by decide)
    (by decide) (by decide)

/-- C1 is false as stated: with `vline_sum = 4`, `actual_line = 2`
(`R + 1 = 3` newlines from a fresh window), `top_vline` ends at 2 — it has
advanced by exactly 2, not 1 (`vlines_used = 2 = R` does hold). -/
theorem c1_counterexample :
    (textui_putstr 2 (TextuiWindow.new 4 1) ['\n', '\n', '\n']
        0 0 true).window?.map (fun w2 => (w2.top_vline, w2.vlines_used)) =
      some (2, 2) ∧ (2 : Int) ≠ 1 := by
  decide

/-! ## Claim C7 (tab emits 8 − c mod 8 spaces) -/

/-- C7: processing `'\t'` reads the operating line's column `c` once,
computes `8 − (c mod 8)`, and routes exactly that many space writes through
the printable-character path `true_textui_putchar_window` — the iteration
continues across any newline the spaces themselves trigger, so remaining
spaces land on the new line. -/
theorem c7_tab_spaces (R : Int) (w : TextuiWindow) (vl : TextuiVlineChromatic)
    (frcolor bkcolor : Nat) (c : Int)
    (hchrom : w.chromatic = true)
    (hvl : w.vlines[usizeOfI32 w.vline_operating]? = some vl)
    (hidx : vl.index = c) (hc : 0 ≤ c) :
    textui_putchar_window R w '\t' frcolor bkcolor true =
      applyN (fun w2 => true_textui_putchar_window R w2 ' ' frcolor bkcolor)
        (8 - c.toNat % 8) w := by
  rw [textui_putchar_window,
    if_neg (by decide : ¬ ('\t' : Char) = Char.ofNat 0),
    if_neg (by decide : ¬ ('\t' : Char) = '\r'),
    if_neg (by simp [hchrom]),
    if_neg (by decide : ¬ ('\t' : Char) = '\n'),
    if_pos rfl, if_pos rfl, hvl]
  show tabLoop R frcolor bkcolor w (8 - usizeOfI32 vl.index % 8) = _
  rw [hidx, usizeOfI32_of_nonneg hc, tabLoop_eq_applyN]

/-- Window of spec Scenario C after writing `"AB"`: `chars_per_line = 4`,
cursor column 2. -/
def wScenarioC : TextuiWindow :=
  { vline_sum := 4
    vlines_used := 1
    top_vline := 0
    vlines := [⟨[⟨some 'A', 1, 0⟩, ⟨some 'B', 1, 0⟩, blackChar, blackChar], 2⟩,
               TextuiVlineChromatic.new 4, TextuiVlineChromatic.new 4,
               TextuiVlineChromatic.new 4]
    vline_operating := 0
    chars_per_line := 4
    chromatic := true }

/-- Witness for C7 at spec Scenario C: tab from column 2 emits
`8 − 2 mod 8 = 6` space writes through the printable path. -/
theorem c7_tab_spaces_witness :
    textui_putchar_window 2 wScenarioC '\t' 1 0 true =
      applyN (fun w2 => true_textui_putchar_window 2 w2 ' ' 1 0)
        (8 - (2 : Int).toNat % 8) wScenarioC :=
  c7_tab_spaces 2 wScenarioC
    ⟨[⟨some 'A', 1, 0⟩, ⟨some 'B', 1, 0⟩, blackChar, blackChar], 2⟩
    1 0 2 rfl (by decide) rfl (by decide)

/-! ## Claim C9 (vlines_used never exceeds the visible row count) -/

/-- Invariant of windows reachable from a fresh window by character
operations: structural well-formedness, non-negative stored columns, and
`vlines_used ≤ R`. -/
def Inv (N C R : Int) (w : TextuiWindow) : Prop :=
  w.vline_sum = N ∧ w.chars_per_line = C ∧ w.chromatic = true ∧
  w.vlines.length = N.toNat ∧
  (∀ vl ∈ w.vlines, vl.chars.length = C.toNat ∧ 0 ≤ vl.index) ∧
  0 ≤ w.vline_operating ∧ w.vline_operating < N ∧
  0 ≤ w.top_vline ∧ w.top_vline < N ∧
  w.vlines_used ≤ R

theorem refresh_characters_no_panic (R N C : Int) (w : TextuiWindow)
    (vid start count : Int)
    (hsum : w.vline_sum = N) (hcpl : w.chars_per_line = C)
    (hch : w.chromatic = true) (hlen : w.vlines.length = N.toNat)
    (hlines : ∀ vl ∈ w.vlines, vl.chars.length = C.toNat)
    (h0 : 0 ≤ start) (hv0 : 0 ≤ vid) (hv1 : vid < N) :
    (∃ l, textui_refresh_characters R w vid start count = ResL.ok l) ∨
      textui_refresh_characters R w vid start count = ResL.err [] := by
  by_cases hc : (¬ lineIdCheck vid w.vline_sum = true ∨
      start + count > w.chars_per_line)
  · right
    rw [textui_refresh_characters, if_pos hc]
  · left
    push_neg at hc
    exact refresh_characters_ok R N C w vid start count hsum hcpl hch hlen
      hlines h0 hv0 hv1 (by rw [← hcpl]; omega)

theorem textui_refresh_vline_err_of_ge (R N C : Int) (w : TextuiWindow)
    (vid : Int)
    (hsum : w.vline_sum = N) (hch : w.chromatic = true) (hv : N ≤ vid) :
    textui_refresh_vline R w vid = ResL.err [] := by
  rw [textui_refresh_vline, if_pos hch, textui_refresh_characters, if_pos]
  left
  intro hx
  simp only [lineIdCheck, hsum, Bool.and_eq_true, decide_eq_true_eq] at hx
  omega

theorem refreshVlineSeq_no_panic (R N C : Int) (w : TextuiWindow)
    (hsum : w.vline_sum = N) (hcpl : w.chars_per_line = C)
    (hch : w.chromatic = true) (hlen : w.vlines.length = N.toNat)
    (hlines : ∀ vl ∈ w.vlines, vl.chars.length = C.toNat) :
    ∀ (n : Nat) (start : Int), 0 ≤ start →
      (∃ l, refreshVlineSeq R w start n = ResL.ok l) ∨
        (∃ l, refreshVlineSeq R w start n = ResL.err l) := by
  intro n
  induction n with
  | zero => exact fun start _ => Or.inl ⟨[], rfl⟩
  | succ n ih =>
    intro start h0
    by_cases hlt : start < N
    · obtain ⟨l1, h1⟩ := textui_refresh_vline_ok R N C w start hsum hcpl hch
        hlen hlines h0 hlt
      rcases ih (start + 1) (by omega) with ⟨l2, h2⟩ | ⟨l2, h2⟩
      · exact Or.inl ⟨l1 ++ l2, by rw [refreshVlineSeq, h1, h2]⟩
      · exact Or.inr ⟨l1 ++ l2, by rw [refreshVlineSeq, h1, h2]⟩
    · have herr := textui_refresh_vline_err_of_ge R N C w start hsum hch
        (by omega)
      exact Or.inr ⟨[], by rw [refreshVlineSeq, herr]⟩

theorem textui_refresh_vlines_no_panic (R N C : Int) (w : TextuiWindow)
    (start count : Int)
    (hsum : w.vline_sum = N) (hcpl : w.chars_per_line = C)
    (hch : w.chromatic = true) (hlen : w.vlines.length = N.toNat)
    (hlines : ∀ vl ∈ w.vlines, vl.chars.length = C.toNat)
    (h0 : 0 ≤ start) :
    (∃ l, textui_refresh_vlines R w start count = ResL.ok l) ∨
      (∃ l, textui_refresh_vlines R w start count = ResL.err l) := by
  rcases refreshVlineSeq_no_panic R N C w hsum hcpl hch hlen hlines
      (min w.vline_sum (start + count) - start).toNat start h0 with
    ⟨l1, h1⟩ | ⟨l1, h1⟩
  · rcases refreshVlineSeq_no_panic R N C w hsum hcpl hch hlen hlines
        (count - ((min w.vline_sum (start + count) - start).toNat : Int)).toNat
        0 le_rfl with ⟨l2, h2⟩ | ⟨l2, h2⟩
    · exact Or.inl ⟨l1 ++ l2, by simp only [textui_refresh_vlines]; rw [h1, h2]⟩
    · exact Or.inr ⟨l1 ++ l2, by simp only [textui_refresh_vlines]; rw [h1, h2]⟩
  · exact Or.inr ⟨l1, by simp only [textui_refresh_vlines]; rw [h1]⟩

/-- `textui_new_line` on an invariant-respecting window never panics,
preserves the invariant, and moves `top_vline` forward by at most one
(wrapping) step. -/
theorem textui_new_line_preserves (R N C : Int) (w : TextuiWindow)
    (hInv : Inv N C R w) :
    ∃ w2 l, (textui_new_line R w = ResW.ok w2 l ∨
        textui_new_line R w = ResW.err w2 l) ∧
      Inv N C R w2 := by
  obtain ⟨hsum, hcpl, hch, hlen, hlines, hop0, hop1, htop0, htop1, hused⟩ :=
    hInv
  have hNpos : 0 < N := by omega
  unfold textui_new_line
  dsimp only
  have hop2cases : ∀ (op2 : Int), 0 ≤ op2 → op2 < N →
      ∀ res : Prop, res = res := fun _ _ _ _ => rfl
  by_cases hwc : w.vline_operating + 1 < N
  case pos =>
    have hcc : ¬ ¬ lineIdCheck (w.vline_operating + 1) w.vline_sum = true := by
      simp only [lineIdCheck, hsum, Bool.and_eq_true, decide_eq_true_eq,
        not_not]
      exact ⟨hwc, by omega⟩
    simp only [if_neg hcc]
    try dsimp only
    have hoplt : (w.vline_operating + 1).toNat < w.vlines.length := by omega
    have hvlx : w.vlines[usizeOfI32 (w.vline_operating + 1)]? =
        some w.vlines[(w.vline_operating + 1).toNat] := by
      rw [usizeOfI32_of_nonneg (show (0 : Int) ≤ w.vline_operating + 1
        by omega)]
      exact List.getElem?_eq_getElem hoplt
    have hclear : clearVline w.chars_per_line
        w.vlines[(w.vline_operating + 1).toNat] =
        ⟨List.replicate C.toNat blackChar, 0⟩ := by
      rw [hcpl]
      exact clearVline_eq C _ (hlines _ (List.getElem_mem hoplt)).1
    simp only [hvlx, hclear]
    try dsimp only
    have hlines3 : ∀ vl ∈ w.vlines.set
        (usizeOfI32 (w.vline_operating + 1))
        (⟨List.replicate C.toNat blackChar, 0⟩ : TextuiVlineChromatic),
        vl.chars.length = C.toNat ∧ 0 ≤ vl.index := by
      intro vl hm
      rcases List.mem_or_eq_of_mem_set hm with h | h
      · exact hlines _ h
      · rw [h]
        exact ⟨List.length_replicate .., le_rfl⟩
    by_cases hu : w.vlines_used = R
    · simp only [if_pos hu]
      by_cases htc : w.top_vline + 1 < N
      · have hccT : ¬ ¬ lineIdCheck (w.top_vline + 1) w.vline_sum = true := by
          simp only [lineIdCheck, hsum, Bool.and_eq_true, decide_eq_true_eq,
            not_not]
          exact ⟨htc, by omega⟩
        simp only [if_neg hccT]
        try dsimp only
        rcases textui_refresh_vlines_no_panic R N C
            { w with
              vline_operating := w.vline_operating + 1
              vlines := w.vlines.set (usizeOfI32 (w.vline_operating + 1))
                ⟨List.replicate C.toNat blackChar, 0⟩
              top_vline := w.top_vline + 1 }
            (w.top_vline + 1) R hsum hcpl hch
            (by dsimp only; rw [List.length_set]; exact hlen)
            (by
              dsimp only
              intro vl hm
              exact (hlines3 vl hm).1)
            (by omega) with ⟨lok, hok⟩ | ⟨lok, hok⟩
        · simp only [hok]
          exact ⟨_, lok, Or.inl rfl, hsum, hcpl, hch,
            by dsimp only; rw [List.length_set]; exact hlen,
            hlines3, by dsimp only; omega, by dsimp only; omega,
            by dsimp only; omega, by dsimp only; omega,
            by dsimp only; omega⟩
        · simp only [hok]
          exact ⟨_, lok, Or.inr rfl, hsum, hcpl, hch,
            by dsimp only; rw [List.length_set]; exact hlen,
            hlines3, by dsimp only; omega, by dsimp only; omega,
            by dsimp only; omega, by dsimp only; omega,
            by dsimp only; omega⟩
      · have hccT : ¬ lineIdCheck (w.top_vline + 1) w.vline_sum = true := by
          simp only [lineIdCheck, hsum, Bool.and_eq_true, decide_eq_true_eq,
            not_and]
          intro h
          omega
        simp only [if_pos hccT]
        try dsimp only
        rcases textui_refresh_vlines_no_panic R N C
            { w with
              vline_operating := w.vline_operating + 1
              vlines := w.vlines.set (usizeOfI32 (w.vline_operating + 1))
                ⟨List.replicate C.toNat blackChar, 0⟩
              top_vline := 0 }
            0 R hsum hcpl hch
            (by dsimp only; rw [List.length_set]; exact hlen)
            (by
              dsimp only
              intro vl hm
              exact (hlines3 vl hm).1)
            le_rfl with ⟨lok, hok⟩ | ⟨lok, hok⟩
        · simp only [hok]
          exact ⟨_, lok, Or.inl rfl, hsum, hcpl, hch,
            by dsimp only; rw [List.length_set]; exact hlen,
            hlines3, by dsimp only; omega, by dsimp only; omega,
            by dsimp only; omega, by dsimp only; omega,
            by dsimp only; omega⟩
        · simp only [hok]
          exact ⟨_, lok, Or.inr rfl, hsum, hcpl, hch,
            by dsimp only; rw [List.length_set]; exact hlen,
            hlines3, by dsimp only; omega, by dsimp only; omega,
            by dsimp only; omega, by dsimp only; omega,
            by dsimp only; omega⟩
    · simp only [if_neg hu]
      exact ⟨_, [], Or.inl rfl, hsum, hcpl, hch,
        by dsimp only; rw [List.length_set]; exact hlen,
        hlines3, by dsimp only; omega, by dsimp only; omega,
        by dsimp only; omega, by dsimp only; omega,
        by dsimp only; omega⟩
  case neg =>
    have hcc : ¬ lineIdCheck (w.vline_operating + 1) w.vline_sum = true := by
      simp only [lineIdCheck, hsum, Bool.and_eq_true, decide_eq_true_eq,
        not_and]
      intro h
      omega
    simp only [if_pos hcc]
    try dsimp only
    have hoplt : (0 : Int).toNat < w.vlines.length := by omega
    have hvlx : w.vlines[usizeOfI32 (0 : Int)]? =
        some w.vlines[(0 : Int).toNat] := by
      rw [usizeOfI32_of_nonneg le_rfl]
      exact List.getElem?_eq_getElem hoplt
    have hclear : clearVline w.chars_per_line w.vlines[(0 : Int).toNat] =
        ⟨List.replicate C.toNat blackChar, 0⟩ := by
      rw [hcpl]
      exact clearVline_eq C _ (hlines _ (List.getElem_mem hoplt)).1
    simp only [hvlx, hclear]
    try dsimp only
    have hlines3 : ∀ vl ∈ w.vlines.set (usizeOfI32 (0 : Int))
        (⟨List.replicate C.toNat blackChar, 0⟩ : TextuiVlineChromatic),
        vl.chars.length = C.toNat ∧ 0 ≤ vl.index := by
      intro vl hm
      rcases List.mem_or_eq_of_mem_set hm with h | h
      · exact hlines _ h
      · rw [h]
        exact ⟨List.length_replicate .., le_rfl⟩
    by_cases hu : w.vlines_used = R
    · simp only [if_pos hu]
      by_cases htc : w.top_vline + 1 < N
      · have hccT : ¬ ¬ lineIdCheck (w.top_vline + 1) w.vline_sum = true := by
          simp only [lineIdCheck, hsum, Bool.and_eq_true, decide_eq_true_eq,
            not_not]
          exact ⟨htc, by omega⟩
        simp only [if_neg hccT]
        try dsimp only
        rcases textui_refresh_vlines_no_panic R N C
            { w with
              vline_operating := (0 : Int)
              vlines := w.vlines.set (usizeOfI32 (0 : Int))
                ⟨List.replicate C.toNat blackChar, 0⟩
              top_vline := w.top_vline + 1 }
            (w.top_vline + 1) R hsum hcpl hch
            (by dsimp only; rw [List.length_set]; exact hlen)
            (by
              dsimp only
              intro vl hm
              exact (hlines3 vl hm).1)
            (by omega) with ⟨lok, hok⟩ | ⟨lok, hok⟩
        · simp only [hok]
          exact ⟨_, lok, Or.inl rfl, hsum, hcpl, hch,
            by dsimp only; rw [List.length_set]; exact hlen,
            hlines3, by dsimp only; omega, by dsimp only; omega,
            by dsimp only; omega, by dsimp only; omega,
            by dsimp only; omega⟩
        · simp only [hok]
          exact ⟨_, lok, Or.inr rfl, hsum, hcpl, hch,
            by dsimp only; rw [List.length_set]; exact hlen,
            hlines3, by dsimp only; omega, by dsimp only; omega,
            by dsimp only; omega, by dsimp only; omega,
            by dsimp only; omega⟩
      · have hccT : ¬ lineIdCheck (w.top_vline + 1) w.vline_sum = true := by
          simp only [lineIdCheck, hsum, Bool.and_eq_true, decide_eq_true_eq,
            not_and]
          intro h
          omega
        simp only [if_pos hccT]
        try dsimp only
        rcases textui_refresh_vlines_no_panic R N C
            { w with
              vline_operating := (0 : Int)
              vlines := w.vlines.set (usizeOfI32 (0 : Int))
                ⟨List.replicate C.toNat blackChar, 0⟩
              top_vline := 0 }
            0 R hsum hcpl hch
            (by dsimp only; rw [List.length_set]; exact hlen)
            (by
              dsimp only
              intro vl hm
              exact (hlines3 vl hm).1)
            le_rfl with ⟨lok, hok⟩ | ⟨lok, hok⟩
        · simp only [hok]
          exact ⟨_, lok, Or.inl rfl, hsum, hcpl, hch,
            by dsimp only; rw [List.length_set]; exact hlen,
            hlines3, by dsimp only; omega, by dsimp only; omega,
            by dsimp only; omega, by dsimp only; omega,
            by dsimp only; omega⟩
        · simp only [hok]
          exact ⟨_, lok, Or.inr rfl, hsum, hcpl, hch,
            by dsimp only; rw [List.length_set]; exact hlen,
            hlines3, by dsimp only; omega, by dsimp only; omega,
            by dsimp only; omega, by dsimp only; omega,
            by dsimp only; omega⟩
    · simp only [if_neg hu]
      exact ⟨_, [], Or.inl rfl, hsum, hcpl, hch,
        by dsimp only; rw [List.length_set]; exact hlen,
        hlines3, by dsimp only; omega, by dsimp only; omega,
        by dsimp only; omega, by dsimp only; omega,
        by dsimp only; omega⟩

/-- `true_textui_putchar_window` on an invariant-respecting window never
panics and preserves the invariant. -/
theorem true_putchar_preserves (R N C : Int) (w : TextuiWindow) (ch : Char)
    (fr bk : Nat) (hInv : Inv N C R w) :
    ∃ w2 l, (true_textui_putchar_window R w ch fr bk = ResW.ok w2 l ∨
        true_textui_putchar_window R w ch fr bk = ResW.err w2 l) ∧
      Inv N C R w2 := by
  obtain ⟨hsum, hcpl, hch, hlen, hlines, hop0, hop1, htop0, htop1, hused⟩ :=
    hInv
  have hoplt : w.vline_operating.toNat < w.vlines.length := by omega
  have hvl : w.vlines[usizeOfI32 w.vline_operating]? =
      some w.vlines[w.vline_operating.toNat] := by
    rw [usizeOfI32_of_nonneg hop0]
    exact List.getElem?_eq_getElem hoplt
  set vl := w.vlines[w.vline_operating.toNat] with hvldef
  have hvlprop := hlines vl (List.getElem_mem hoplt)
  rw [true_textui_putchar_window, if_pos hch, hvl]
  dsimp only
  cases hlk : vl.chars[usizeOfI32 vl.index]? with
  | some oldc =>
    simp only [hlk]
    have hlines1 : ∀ vl2 ∈ w.vlines.set (usizeOfI32 w.vline_operating)
        (⟨vl.chars.set (usizeOfI32 vl.index) ⟨some ch, fr, bk⟩,
          vl.index + 1⟩ : TextuiVlineChromatic),
        vl2.chars.length = C.toNat ∧ 0 ≤ vl2.index := by
      intro vl2 hm
      rcases List.mem_or_eq_of_mem_set hm with h | h
      · exact hlines _ h
      · rw [h]
        refine ⟨?_, by dsimp only; omega⟩
        dsimp only
        rw [List.length_set]
        exact hvlprop.1
    have hInv1 : Inv N C R
        { w with
          vlines := w.vlines.set (usizeOfI32 w.vline_operating)
            ⟨vl.chars.set (usizeOfI32 vl.index) ⟨some ch, fr, bk⟩,
              vl.index + 1⟩ } :=
      ⟨hsum, hcpl, hch, by dsimp only; rw [List.length_set]; exact hlen,
        hlines1, hop0, hop1, htop0, htop1, hused⟩
    rcases refresh_characters_no_panic R N C
        { w with
          vlines := w.vlines.set (usizeOfI32 w.vline_operating)
            ⟨vl.chars.set (usizeOfI32 vl.index) ⟨some ch, fr, bk⟩,
              vl.index + 1⟩ }
        w.vline_operating vl.index 1 hsum hcpl hch
        (by dsimp only; rw [List.length_set]; exact hlen)
        (by
          try dsimp only
          intro vl2 hm
          exact (hlines1 vl2 hm).1)
        hvlprop.2 hop0 hop1 with ⟨lr, hres⟩ | hres
    · simp only [hres]
      by_cases hplc : lineIndexCheck vl.index (w.chars_per_line - 1) = true
      · rw [if_neg (fun hcon => hcon hplc)]
        exact ⟨_, lr, Or.inl rfl, hInv1⟩
      · rw [if_pos hplc]
        obtain ⟨w2, l2, hres2, hInv2⟩ :=
          textui_new_line_preserves R N C _ hInv1
        rcases hres2 with h2 | h2
        · simp only [h2]
          exact ⟨w2, lr ++ l2, Or.inl rfl, hInv2⟩
        · simp only [h2]
          exact ⟨w2, lr ++ l2, Or.inr rfl, hInv2⟩
    · simp only [hres]
      exact ⟨_, [], Or.inr rfl, hInv1⟩
  | none =>
    simp only [hlk]
    have hlines1 : ∀ vl2 ∈ w.vlines.set (usizeOfI32 w.vline_operating)
        (⟨vl.chars, vl.index + 1⟩ : TextuiVlineChromatic),
        vl2.chars.length = C.toNat ∧ 0 ≤ vl2.index := by
      intro vl2 hm
      rcases List.mem_or_eq_of_mem_set hm with h | h
      · exact hlines _ h
      · rw [h]
        exact ⟨hvlprop.1, by dsimp only; omega⟩
    have hInv1 : Inv N C R
        { w with
          vlines := w.vlines.set (usizeOfI32 w.vline_operating)
            ⟨vl.chars, vl.index + 1⟩ } :=
      ⟨hsum, hcpl, hch, by dsimp only; rw [List.length_set]; exact hlen,
        hlines1, hop0, hop1, htop0, htop1, hused⟩
    rcases refresh_characters_no_panic R N C
        { w with
          vlines := w.vlines.set (usizeOfI32 w.vline_operating)
            ⟨vl.chars, vl.index + 1⟩ }
        w.vline_operating vl.index 1 hsum hcpl hch
        (by dsimp only; rw [List.length_set]; exact hlen)
        (by
          try dsimp only
          intro vl2 hm
          exact (hlines1 vl2 hm).1)
        hvlprop.2 hop0 hop1 with ⟨lr, hres⟩ | hres
    · simp only [hres]
      by_cases hplc : lineIndexCheck vl.index (w.chars_per_line - 1) = true
      · rw [if_neg (fun hcon => hcon hplc)]
        exact ⟨_, lr, Or.inl rfl, hInv1⟩
      · rw [if_pos hplc]
        obtain ⟨w2, l2, hres2, hInv2⟩ :=
          textui_new_line_preserves R N C _ hInv1
        rcases hres2 with h2 | h2
        · simp only [h2]
          exact ⟨w2, lr ++ l2, Or.inl rfl, hInv2⟩
        · simp only [h2]
          exact ⟨w2, lr ++ l2, Or.inr rfl, hInv2⟩
    · simp only [hres]
      exact ⟨_, [], Or.inr rfl, hInv1⟩

theorem tabLoop_preserves (R N C : Int) (fr bk : Nat) :
    ∀ (n : Nat) (w : TextuiWindow), Inv N C R w →
      ∃ w2 l, (tabLoop R fr bk w n = ResW.ok w2 l ∨
          tabLoop R fr bk w n = ResW.err w2 l) ∧ Inv N C R w2 := by
  intro n
  induction n with
  | zero => exact fun w h => ⟨w, [], Or.inl rfl, h⟩
  | succ n ih =>
    intro w hInv
    obtain ⟨w1, l1, hres1, hInv1⟩ :=
      true_putchar_preserves R N C w ' ' fr bk hInv
    rcases hres1 with h1 | h1
    · obtain ⟨w2, l2, hres2, hInv2⟩ := ih w1 hInv1
      rcases hres2 with h2 | h2
      · refine ⟨w2, l1 ++ l2, Or.inl ?_, hInv2⟩
        rw [tabLoop, h1]
        dsimp only
        rw [h2]
      · refine ⟨w2, l1 ++ l2, Or.inr ?_, hInv2⟩
        rw [tabLoop, h1]
        dsimp only
        rw [h2]
    · refine ⟨w1, l1, Or.inr ?_, hInv1⟩
      rw [tabLoop, h1]

/-- Main preservation lemma for C9: a single `textui_putchar_window` step
(any character, output enabled) from an invariant-respecting window never
panics, preserves the invariant — in particular `vlines_used ≤ R` — and a
backspace step never changes `top_vline` (the `vlines_used > R` un-scroll
branch is never taken). -/
theorem putchar_preserves (R N C : Int) (w : TextuiWindow) (c : Char)
    (fr bk : Nat) (hInv : Inv N C R w) :
    ∃ w2 l, (textui_putchar_window R w c fr bk true = ResW.ok w2 l ∨
        textui_putchar_window R w c fr bk true = ResW.err w2 l) ∧
      Inv N C R w2 ∧
      (c = Char.ofNat 8 → w2.top_vline = w.top_vline) := by
  have hInvKeep := hInv
  obtain ⟨hsum, hcpl, hch, hlen, hlines, hop0, hop1, htop0, htop1, hused⟩ :=
    hInv
  have hoplt : w.vline_operating.toNat < w.vlines.length := by omega
  have hvl : w.vlines[usizeOfI32 w.vline_operating]? =
      some w.vlines[w.vline_operating.toNat] := by
    rw [usizeOfI32_of_nonneg hop0]
    exact List.getElem?_eq_getElem hoplt
  set vl := w.vlines[w.vline_operating.toNat] with hvldef
  have hvlprop := hlines vl (List.getElem_mem hoplt)
  by_cases h0 : c = Char.ofNat 0
  · refine ⟨w, [], Or.inl ?_, hInvKeep, fun hc =>
      absurd (h0.symm.trans hc) (by decide)⟩
    rw [textui_putchar_window, if_pos h0]
  by_cases hr : c = '\r'
  · refine ⟨w, [], Or.inl ?_, hInvKeep, fun hc =>
      absurd (hr.symm.trans hc) (by decide)⟩
    rw [textui_putchar_window, if_neg h0, if_pos hr]
  by_cases hn : c = '\n'
  · obtain ⟨w2, l2, hres, hInv2⟩ := textui_new_line_preserves R N C w hInvKeep
    have heq : textui_putchar_window R w c fr bk true = textui_new_line R w := by
      rw [textui_putchar_window, if_neg h0, if_neg hr, if_neg (by simp [hch]),
        if_pos hn, if_pos rfl]
    rw [← heq] at hres
    exact ⟨w2, l2, hres, hInv2, fun hc =>
      absurd (hn.symm.trans hc) (by decide)⟩
  by_cases ht : c = '\t'
  · obtain ⟨w2, l2, hres, hInv2⟩ := tabLoop_preserves R N C fr bk
      (8 - usizeOfI32 vl.index % 8) w hInvKeep
    have heq : textui_putchar_window R w c fr bk true =
        tabLoop R fr bk w (8 - usizeOfI32 vl.index % 8) := by
      rw [textui_putchar_window, if_neg h0, if_neg hr, if_neg (by simp [hch]),
        if_neg hn, if_pos ht, if_pos rfl, hvl]
    rw [← heq] at hres
    exact ⟨w2, l2, hres, hInv2, fun hc =>
      absurd (ht.symm.trans hc) (by decide)⟩
  by_cases hb : c = Char.ofNat 8
  · rw [textui_putchar_window, if_neg h0, if_neg hr, if_neg (by simp [hch]),
      if_neg hn, if_neg ht, if_pos hb, if_pos rfl, hvl]
    dsimp only
    by_cases hbs : (0 : Int) ≤ vl.index - 1
    · rw [if_pos hbs]
      cases hlk : vl.chars[usizeOfI32 (vl.index - 1)]? with
      | some oldc =>
        simp only [hlk]
        have hlines1 : ∀ vl2 ∈ (w.vlines.set (usizeOfI32 w.vline_operating)
            (⟨vl.chars, vl.index - 1⟩ : TextuiVlineChromatic)).set
              (usizeOfI32 w.vline_operating)
              (⟨vl.chars.set (usizeOfI32 (vl.index - 1))
                ⟨some ' ', oldc.frcolor, bk⟩, vl.index - 1⟩ :
                TextuiVlineChromatic),
            vl2.chars.length = C.toNat ∧ 0 ≤ vl2.index := by
          intro vl2 hm
          rcases List.mem_or_eq_of_mem_set hm with h | h
          · rcases List.mem_or_eq_of_mem_set h with h2 | h2
            · exact hlines _ h2
            · rw [h2]
              exact ⟨hvlprop.1, by dsimp only; omega⟩
          · rw [h]
            refine ⟨?_, by dsimp only; omega⟩
            dsimp only
            rw [List.length_set]
            exact hvlprop.1
        have hInvB : Inv N C R
            { w with
              vlines := (w.vlines.set (usizeOfI32 w.vline_operating)
                ⟨vl.chars, vl.index - 1⟩).set (usizeOfI32 w.vline_operating)
                ⟨vl.chars.set (usizeOfI32 (vl.index - 1))
                  ⟨some ' ', oldc.frcolor, bk⟩, vl.index - 1⟩ } :=
          ⟨hsum, hcpl, hch,
            by dsimp only; rw [List.length_set, List.length_set]; exact hlen,
            hlines1, hop0, hop1, htop0, htop1, hused⟩
        rcases refresh_characters_no_panic R N C
            { w with
              vlines := (w.vlines.set (usizeOfI32 w.vline_operating)
                ⟨vl.chars, vl.index - 1⟩).set (usizeOfI32 w.vline_operating)
                ⟨vl.chars.set (usizeOfI32 (vl.index - 1))
                  ⟨some ' ', oldc.frcolor, bk⟩, vl.index - 1⟩ }
            w.vline_operating (vl.index - 1) 1 hsum hcpl hch
            (by dsimp only; rw [List.length_set, List.length_set]; exact hlen)
            (by
              try dsimp only
              intro vl2 hm
              exact (hlines1 vl2 hm).1)
            hbs hop0 hop1 with ⟨lr, hres⟩ | hres
        · simp only [hres]
          exact ⟨_, lr, Or.inl rfl, hInvB, fun _ => rfl⟩
        · simp only [hres]
          exact ⟨_, [], Or.inr rfl, hInvB, fun _ => rfl⟩
      | none =>
        simp only [hlk]
        have hlines1 : ∀ vl2 ∈ (w.vlines.set (usizeOfI32 w.vline_operating)
            (⟨vl.chars, vl.index - 1⟩ : TextuiVlineChromatic)).set
              (usizeOfI32 w.vline_operating)
              (⟨vl.chars, vl.index - 1⟩ : TextuiVlineChromatic),
            vl2.chars.length = C.toNat ∧ 0 ≤ vl2.index := by
          intro vl2 hm
          rcases List.mem_or_eq_of_mem_set hm with h | h
          · rcases List.mem_or_eq_of_mem_set h with h2 | h2
            · exact hlines _ h2
            · rw [h2]
              exact ⟨hvlprop.1, by dsimp only; omega⟩
          · rw [h]
            exact ⟨hvlprop.1, by dsimp only; omega⟩
        have hInvB : Inv N C R
            { w with
              vlines := (w.vlines.set (usizeOfI32 w.vline_operating)
                ⟨vl.chars, vl.index - 1⟩).set (usizeOfI32 w.vline_operating)
                ⟨vl.chars, vl.index - 1⟩ } :=
          ⟨hsum, hcpl, hch,
            by dsimp only; rw [List.length_set, List.length_set]; exact hlen,
            hlines1, hop0, hop1, htop0, htop1, hused⟩
        rcases refresh_characters_no_panic R N C
            { w with
              vlines := (w.vlines.set (usizeOfI32 w.vline_operating)
                ⟨vl.chars, vl.index - 1⟩).set (usizeOfI32 w.vline_operating)
                ⟨vl.chars, vl.index - 1⟩ }
            w.vline_operating (vl.index - 1) 1 hsum hcpl hch
            (by dsimp only; rw [List.length_set, List.length_set]; exact hlen)
            (by
              try dsimp only
              intro vl2 hm
              exact (hlines1 vl2 hm).1)
            hbs hop0 hop1 with ⟨lr, hres⟩ | hres
        · simp only [hres]
          exact ⟨_, lr, Or.inl rfl, hInvB, fun _ => rfl⟩
        · simp only [hres]
          exact ⟨_, [], Or.inr rfl, hInvB, fun _ => rfl⟩
    · rw [if_neg hbs]
      have hclear : clearVline w.chars_per_line
          (⟨vl.chars, vl.index - 1⟩ : TextuiVlineChromatic) =
          ⟨List.replicate C.toNat blackChar, 0⟩ := by
        rw [hcpl]
        exact clearVline_eq C _ hvlprop.1
      simp only [hclear]
      try dsimp only
      simp only [List.set_set]
      have hgt : ¬ w.vlines_used > R := by omega
      have hlines1 : ∀ vl2 ∈ w.vlines.set (usizeOfI32 w.vline_operating)
          (⟨List.replicate C.toNat blackChar, 0⟩ : TextuiVlineChromatic),
          vl2.chars.length = C.toNat ∧ 0 ≤ vl2.index := by
        intro vl2 hm
        rcases List.mem_or_eq_of_mem_set hm with h | h
        · exact hlines _ h
        · rw [h]
          exact ⟨List.length_replicate .., le_rfl⟩
      by_cases hopz : w.vline_operating - 1 < 0
      · simp only [if_pos hopz, if_neg hgt]
        try dsimp only
        rcases textui_refresh_vlines_no_panic R N C
            { w with
              vlines := w.vlines.set (usizeOfI32 w.vline_operating)
                ⟨List.replicate C.toNat blackChar, 0⟩
              vline_operating := w.vline_sum - 1
              vlines_used := w.vlines_used - 1 }
            w.top_vline R hsum hcpl hch
            (by dsimp only; rw [List.length_set]; exact hlen)
            (by
              try dsimp only
              intro vl2 hm
              exact (hlines1 vl2 hm).1)
            htop0 with ⟨lr, hres⟩ | ⟨lr, hres⟩
        · simp only [hres]
          exact ⟨_, lr, Or.inl rfl,
            ⟨hsum, hcpl, hch,
              by dsimp only; rw [List.length_set]; exact hlen,
              hlines1, by dsimp only; omega, by dsimp only; omega,
              htop0, htop1, by dsimp only; omega⟩, fun _ => rfl⟩
        · simp only [hres]
          exact ⟨_, lr, Or.inr rfl,
            ⟨hsum, hcpl, hch,
              by dsimp only; rw [List.length_set]; exact hlen,
              hlines1, by dsimp only; omega, by dsimp only; omega,
              htop0, htop1, by dsimp only; omega⟩, fun _ => rfl⟩
      · simp only [if_neg hopz, if_neg hgt]
        try dsimp only
        rcases textui_refresh_vlines_no_panic R N C
            { w with
              vlines := w.vlines.set (usizeOfI32 w.vline_operating)
                ⟨List.replicate C.toNat blackChar, 0⟩
              vline_operating := w.vline_operating - 1
              vlines_used := w.vlines_used - 1 }
            w.top_vline R hsum hcpl hch
            (by dsimp only; rw [List.length_set]; exact hlen)
            (by
              try dsimp only
              intro vl2 hm
              exact (hlines1 vl2 hm).1)
            htop0 with ⟨lr, hres⟩ | ⟨lr, hres⟩
        · simp only [hres]
          exact ⟨_, lr, Or.inl rfl,
            ⟨hsum, hcpl, hch,
              by dsimp only; rw [List.length_set]; exact hlen,
              hlines1, by dsimp only; omega, by dsimp only; omega,
              htop0, htop1, by dsimp only; omega⟩, fun _ => rfl⟩
        · simp only [hres]
          exact ⟨_, lr, Or.inr rfl,
            ⟨hsum, hcpl, hch,
              by dsimp only; rw [List.length_set]; exact hlen,
              hlines1, by dsimp only; omega, by dsimp only; omega,
              htop0, htop1, by dsimp only; omega⟩, fun _ => rfl⟩
  · -- printable path
    rw [textui_putchar_window, if_neg h0, if_neg hr, if_neg (by simp [hch]),
      if_neg hn, if_neg ht, if_neg hb, if_pos rfl, hvl]
    dsimp only
    by_cases hplc : lineIndexCheck vl.index w.chars_per_line = true
    · rw [if_neg (fun hcon => hcon hplc)]
      obtain ⟨w2, l2, hres, hInv2⟩ :=
        true_putchar_preserves R N C w c fr bk hInvKeep
      exact ⟨w2, l2, hres, hInv2, fun hc => absurd hc hb⟩
    · rw [if_pos hplc]
      obtain ⟨w1, l1, hres1, hInv1⟩ :=
        textui_new_line_preserves R N C w hInvKeep
      rcases hres1 with h1 | h1
      · simp only [h1]
        obtain ⟨w2, l2, hres2, hInv2⟩ :=
          true_putchar_preserves R N C w1 c fr bk hInv1
        rcases hres2 with h2 | h2
        · simp only [h2]
          exact ⟨w2, l1 ++ l2, Or.inl rfl, hInv2, fun hc => absurd hc hb⟩
        · simp only [h2]
          exact ⟨w2, l1 ++ l2, Or.inr rfl, hInv2, fun hc => absurd hc hb⟩
      · simp only [h1]
        exact ⟨w1, l1, Or.inr rfl, hInv1, fun hc => absurd hc hb⟩

/-- Reachability from a start window by `textui_putchar_window` steps with
output enabled, through both successful steps and steps that return an
error (an `Err` propagated by `?` still leaves its `&mut self` mutations in
place). -/
inductive Reaches (R : Int) : TextuiWindow → TextuiWindow → Prop where
  | refl (w : TextuiWindow) : Reaches R w w
  | step_ok (w w1 w2 : TextuiWindow) (c : Char) (fr bk : Nat)
      (l : List RenderCall) : Reaches R w w1 →
      textui_putchar_window R w1 c fr bk true = ResW.ok w2 l →
      Reaches R w w2
  | step_err (w w1 w2 : TextuiWindow) (c : Char) (fr bk : Nat)
      (l : List RenderCall) : Reaches R w w1 →
      textui_putchar_window R w1 c fr bk true = ResW.err w2 l →
      Reaches R w w2

theorem reaches_inv (R N C : Int) (w0 w : TextuiWindow)
    (h0 : Inv N C R w0) (h : Reaches R w0 w) : Inv N C R w := by
  induction h with
  | refl => exact h0
  | step_ok w1 w2 c fr bk l hr hstep ih =>
    obtain ⟨w2', l', hres, hInv', _⟩ := putchar_preserves R N C w1 c fr bk ih
    rcases hres with hres | hres
    · rw [hstep] at hres
      injection hres with hw hl
      rw [hw]
      exact hInv'
    · rw [hstep] at hres
      cases hres
  | step_err w1 w2 c fr bk l hr hstep ih =>
    obtain ⟨w2', l', hres, hInv', _⟩ := putchar_preserves R N C w1 c fr bk ih
    rcases hres with hres | hres
    · rw [hstep] at hres
      cases hres
    · rw [hstep] at hres
      injection hres with hw hl
      rw [hw]
      exact hInv'

/-- C9: in every window reachable from a fresh window by character
operations (printable, newline, tab, backspace — with output enabled),
`vlines_used` never exceeds the visible row count `R ≥ 1`; consequently the
backspace branch guarded by `vlines_used > R` is never taken and backspace
never moves `top_vline` (the only remaining `top_vline` movement is the
forward scroll of `textui_new_line`). -/
theorem c9_vlines_used_invariant (N C R : Int) (w : TextuiWindow)
    (hN : 1 ≤ N) (hC : 0 ≤ C) (hR : 1 ≤ R)
    (h : Reaches R (TextuiWindow.new N C) w) :
    w.vlines_used ≤ R ∧ ¬ w.vlines_used > R ∧
    (∀ (fr bk : Nat) (w2 : TextuiWindow) (l : List RenderCall),
      (textui_putchar_window R w (Char.ofNat 8) fr bk true = ResW.ok w2 l ∨
       textui_putchar_window R w (Char.ofNat 8) fr bk true = ResW.err w2 l) →
      w2.top_vline = w.top_vline) := by
  have hInv0 : Inv N C R (TextuiWindow.new N C) := by
    refine ⟨rfl, rfl, rfl, List.length_replicate .., ?_, ?_, ?_, ?_, ?_, ?_⟩
    · intro vl hm
      rw [(List.mem_replicate.mp hm).2]
      exact ⟨List.length_replicate .., le_rfl⟩
    · exact le_refl (0 : Int)
    · show (0 : Int) < N
      omega
    · exact le_refl (0 : Int)
    · show (0 : Int) < N
      omega
    · show (1 : Int) ≤ R
      exact hR
  have hInv := reaches_inv R N C (TextuiWindow.new N C) w hInv0 h
  have hused := hInv.2.2.2.2.2.2.2.2.2
  refine ⟨hused, by omega, ?_⟩
  intro fr bk w2 l hstep
  obtain ⟨w2', l', hres, _, htop⟩ :=
    putchar_preserves R N C w (Char.ofNat 8) fr bk hInv
  have htop' := htop rfl
  rcases hstep with hstep | hstep <;> rcases hres with hres | hres
  · rw [hstep] at hres
    injection hres with hw _
    rw [← hw] at htop'
    exact htop'
  · rw [hstep] at hres
    cases hres
  · rw [hstep] at hres
    cases hres
  · rw [hstep] at hres
    injection hres with hw _
    rw [← hw] at htop'
    exact htop'

/-- Witness for C9 at the fresh window `vline_sum = 2`,
`chars_per_line = 2`, `actual_line = 2` (reachable by the empty sequence). -/
theorem c9_vlines_used_invariant_witness :
    (TextuiWindow.new 2 2).vlines_used ≤ 2 ∧
    ¬ (TextuiWindow.new 2 2).vlines_used > 2 ∧
    (∀ (fr bk : Nat) (w2 : TextuiWindow) (l : List RenderCall),
      (textui_putchar_window 2 (TextuiWindow.new 2 2) (Char.ofNat 8)
        fr bk true = ResW.ok w2 l ∨
       textui_putchar_window 2 (TextuiWindow.new 2 2) (Char.ofNat 8)
        fr bk true = ResW.err w2 l) →
      w2.top_vline = (TextuiWindow.new 2 2).top_vline) :=
  c9_vlines_used_invariant 2 2 2 (TextuiWindow.new 2 2) (by decide)
    (by decide) (by decide) (Reaches.refl _)

end DragonTextui
